import Mathlib

/-!
Shallow embedding of the Idle-RPG battle engine and matchmaking queue.

Numbers are modelled as rationals (`ℚ`): the JavaScript source performs
ordinary arithmetic on IEEE doubles, and every claim under study concerns
exact comparisons and integer rounding, none of which depend on binary
floating-point artefacts.  `Math.round` is `round` (`⌊x + 1/2⌋`, the same
half-up rule as JS), `Math.floor` is `Int.floor`, `Math.min`/`Math.max`
are `min`/`max`.  Randomness (`Math.random()`) is modelled as an explicit
stream of draws threaded through the battle state.
-/

namespace IdleRPG

/-- JS `Math.round` on rationals: half rounds toward positive infinity,
exactly Mathlib's `round` (`⌊x + 1/2⌋`). -/
def jsRound (x : ℚ) : ℚ := ((round x : ℤ) : ℚ)

/-- JS `Math.floor` on rationals. -/
def jsFloor (x : ℚ) : ℚ := ((⌊x⌋ : ℤ) : ℚ)

/-- JS `x || d` for an optional numeric field: `undefined` and `0` are both
falsy, so the default applies in either case. -/
def jsOr (x : Option ℚ) (d : ℚ) : ℚ :=
  match x with
  | none => d
  | some v => if v = 0 then d else v

/-- JS `x || d` for an optional counter field (used for `multiAttack.count`). -/
def jsOrN (x : Option ℕ) (d : ℕ) : ℕ :=
  match x with
  | none => d
  | some v => if v = 0 then d else v

/-- Stats record produced by `calculateStats` in `character-model.js`; the
battle engine reads exactly these stat fields. -/
structure Stats where
  health : ℚ
  mana : ℚ
  minPhysicalDamage : ℚ
  maxPhysicalDamage : ℚ
  minMagicDamage : ℚ
  maxMagicDamage : ℚ
  attackSpeed : ℚ
  criticalChance : ℚ
  spellCritChance : ℚ
  physicalDamageReduction : ℚ
  magicDamageReduction : ℚ
deriving Repr, DecidableEq

/-- Buff object pushed by `applyBuff` in the battle service. -/
structure Buff where
  name : String
  type : String
  amount : ℚ
  duration : ℚ
  endTime : ℚ
deriving Repr, DecidableEq

/-- Periodic effect object pushed by `applyPeriodicEffect`.  DoT-style
effects carry `damage`, resource effects carry `amount`; the JS object simply
leaves the unused field `undefined`, modelled here as a `0` default. -/
structure PeriodicEffect where
  name : String
  type : String
  damage : ℚ := 0
  amount : ℚ := 0
  duration : ℚ
  interval : ℚ
  lastProcTime : ℚ
  endTime : ℚ
  sourceName : String := ""
deriving Repr, DecidableEq

/-- Battle-ready combatant, as built by `createBattleState` in
`character-model.js` (spread of the persisted record plus fresh combat
fields). -/
structure Character where
  id : String
  name : String
  playerId : String := ""
  stats : Stats
  currentHealth : ℚ
  currentMana : ℚ
  rotation : List String := []
  nextAbilityIndex : ℕ := 0
  attackType : String := "physical"
  cooldowns : List (String × ℚ) := []
  buffs : List Buff := []
  periodicEffects : List PeriodicEffect := []
deriving Repr, DecidableEq

/-- One battle-log line (`createLogEntry` in `battle-utils.js`). -/
structure LogEntry where
  time : ℚ
  message : String
deriving Repr, DecidableEq

/-- Battle state (`createBattleState` in `battle-model.js`).  The `rolls`
stream together with `rngIdx` models the ambient `Math.random()` source; the
uuid/timestamp metadata of the JS object plays no part in any claim. -/
structure BattleState where
  character1 : Character
  character2 : Character
  log : List LogEntry := []
  rounds : ℕ := 0
  winner : Option String := none
  rolls : ℕ → ℚ
  rngIdx : ℕ := 0

/-- Select one of the two battle characters; `true` is `character1`. -/
def BattleState.getChar (st : BattleState) (i : Bool) : Character :=
  if i then st.character1 else st.character2

/-- Replace one of the two battle characters. -/
def BattleState.setChar (st : BattleState) (i : Bool) (c : Character) : BattleState :=
  if i then { st with character1 := c } else { st with character2 := c }

/-- Update one of the two battle characters in place (JS mutates through a
reference; here the field is rewritten). -/
def BattleState.updChar (st : BattleState) (i : Bool) (f : Character → Character) : BattleState :=
  st.setChar i (f (st.getChar i))

/-- Append one entry to the battle log (`battleState.log.push(...)`). -/
def BattleState.pushLog (st : BattleState) (e : LogEntry) : BattleState :=
  { st with log := st.log ++ [e] }

/-- Draw the next `Math.random()` value from the modelled stream. -/
def BattleState.nextRand (st : BattleState) : ℚ × BattleState :=
  (st.rolls st.rngIdx, { st with rngIdx := st.rngIdx + 1 })

/-- battle-utils `randomInt(min, max)`: `Math.floor(r * (max - min + 1)) + min`
for a draw `r` of `Math.random()`. -/
def randomInt (r mn mx : ℚ) : ℚ := jsFloor (r * (mx - mn + 1)) + mn

/-- battle-utils `calculateCritical(critChance)`: `Math.random() * 100 <= critChance`. -/
def calculateCritical (r critChance : ℚ) : Bool := r * 100 ≤ critChance

/-- battle-utils `applyDamageReduction(baseDamage, damageReduction)`: the
reduction multiplier is capped at `0.8`, and the rounded result is floored
at `1`. -/
def applyDamageReduction (baseDamage damageReduction : ℚ) : ℚ :=
  let reductionMultiplier := min (4/5 : ℚ) (damageReduction / 100)
  max 1 (jsRound (baseDamage * (1 - reductionMultiplier)))

/-- battle-utils `createLogEntry(time, message)`: the time is printed with
`toFixed(1)` and re-parsed, i.e. rounded to one decimal place. -/
def createLogEntry (time : ℚ) (message : String) : LogEntry :=
  { time := jsRound (10 * time) / 10, message := message }

/-- battle-utils `getEffectiveAttackSpeed(character)`: base speed times a
modifier that starts at `1` and is multiplied by `1 + amount/100` for every
`attackSpeedReduction` buff. -/
def getEffectiveAttackSpeed (c : Character) : ℚ :=
  c.stats.attackSpeed *
    c.buffs.foldl
      (fun m b => if b.type = "attackSpeedReduction" then m * (1 + b.amount / 100) else m) 1

/-- battle-service `logFinalState`: two log lines reporting floored health
and mana (plus a percentage when the side is still alive). -/
def logFinalState (st : BattleState) (battleTime : ℚ) : BattleState :=
  let c1 := st.character1
  let c2 := st.character2
  let p1 := toString (jsRound (10 * (c1.currentHealth / c1.stats.health * 100)) / 10)
  let p2 := toString (jsRound (10 * (c2.currentHealth / c2.stats.health * 100)) / 10)
  let st := st.pushLog (createLogEntry (battleTime + 1/10)
    ((("Final state - " ++ c1.name ++ ": " ++ toString (jsFloor c1.currentHealth) ++ " health")
      ++ (if c1.currentHealth > 0 then (" (" ++ p1 ++ "%)") else ""))
      ++ (", " ++ toString (jsFloor c1.currentMana) ++ " mana")))
  st.pushLog (createLogEntry (battleTime + 2/10)
    ((("Final state - " ++ c2.name ++ ": " ++ toString (jsFloor c2.currentHealth) ++ " health")
      ++ (if c2.currentHealth > 0 then (" (" ++ p2 ++ "%)") else ""))
      ++ (", " ++ toString (jsFloor c2.currentMana) ++ " mana")))

/-- battle-service `determineWinner`: a dead `character1` hands the win to
`character2` (checked first), then the converse; otherwise the time-limit
path compares health percentages, with `null` on exact equality. -/
def determineWinner (st : BattleState) (battleTime : ℚ) : BattleState :=
  if st.character1.currentHealth ≤ 0 then
    let st := { st with winner := some st.character2.id }
    let st := st.pushLog (createLogEntry battleTime (st.character2.name ++ " wins the battle!"))
    logFinalState st battleTime
  else if st.character2.currentHealth ≤ 0 then
    let st := { st with winner := some st.character1.id }
    let st := st.pushLog (createLogEntry battleTime (st.character1.name ++ " wins the battle!"))
    logFinalState st battleTime
  else
    let char1HealthPercent := st.character1.currentHealth / st.character1.stats.health * 100
    let char2HealthPercent := st.character2.currentHealth / st.character2.stats.health * 100
    if char1HealthPercent > char2HealthPercent then
      let st := { st with winner := some st.character1.id }
      let st := st.pushLog (createLogEntry battleTime
        ("Time limit reached! " ++ st.character1.name ++ " wins with more health remaining!"))
      logFinalState st battleTime
    else if char2HealthPercent > char1HealthPercent then
      let st := { st with winner := some st.character2.id }
      let st := st.pushLog (createLogEntry battleTime
        ("Time limit reached! " ++ st.character2.name ++ " wins with more health remaining!"))
      logFinalState st battleTime
    else
      let st := { st with winner := none }
      let st := st.pushLog (createLogEntry battleTime
        ("Time limit reached! Battle ended in a draw (equal health remaining)"))
      logFinalState st battleTime

/-- Buff-effect record of an ability definition (`abilities.json`). -/
structure BuffEffect where
  type : String
  amount : Option ℚ := none
  duration : ℚ
  targetsSelf : Option Bool := none
  magicDamageScaling : Bool := false
  scalingRate : Option ℚ := none
  baseAmount : Option ℚ := none
  maxAmount : Option ℚ := none
deriving Repr, DecidableEq

/-- Heal-effect record of an ability definition. -/
structure HealEffect where
  multiplier : ℚ
deriving Repr, DecidableEq

/-- DoT-effect record of an ability definition. -/
structure DotEffect where
  type : String
  damage : ℚ
  duration : ℚ
  interval : Option ℚ := none
deriving Repr, DecidableEq

/-- Periodic-effect record of an ability definition (mana drain etc.). -/
structure PeriodicEffectDef where
  type : String
  amount : ℚ
  duration : ℚ
  interval : ℚ
deriving Repr, DecidableEq

/-- Multi-attack record of an ability definition. -/
structure MultiAttackDef where
  count : Option ℕ := none
  delay : Option ℚ := none
deriving Repr, DecidableEq

/-- Critical-effect record of an ability definition (burning on crit). -/
structure CriticalEffect where
  type : String
  damagePercent : ℚ
  duration : ℚ
  interval : Option ℚ := none
deriving Repr, DecidableEq

/-- Ability definition as stored in `abilities.json`: several optional
effect-shape fields rather than a closed tagged union. -/
structure Ability where
  id : String
  name : String
  type : String := "physical"
  cooldown : ℚ := 0
  manaCost : Option ℚ := none
  buffEffect : Option BuffEffect := none
  healEffect : Option HealEffect := none
  dotEffect : Option DotEffect := none
  periodicEffect : Option PeriodicEffectDef := none
  guaranteedCrit : Bool := false
  multiAttack : Option MultiAttackDef := none
  damage : Option String := none
  damageMultiplier : Option ℚ := none
  selfDamagePercent : Option ℚ := none
  criticalEffect : Option CriticalEffect := none
  baseCritBonus : Option ℚ := none
deriving Repr, DecidableEq

/-- Read-only ability catalog (`ability-service.js` over `abilities.json`). -/
abbrev Catalog := List Ability

/-- ability-service `getAbility(abilityId)`. -/
def getAbility (cat : Catalog) (abilityId : String) : Option Ability :=
  cat.find? (fun a => a.id = abilityId)

/-- ability-service `getAbilityByName(name)`. -/
def getAbilityByName (cat : Catalog) (nm : String) : Option Ability :=
  cat.find? (fun a => a.name = nm)

/-- battle-utils `hasEnoughMana(character, ability)`: a missing or zero
`manaCost` is falsy, so it never blocks. -/
def hasEnoughMana (c : Character) (a : Ability) : Bool :=
  match a.manaCost with
  | none => true
  | some m => if m = 0 then true else decide (m ≤ c.currentMana)

/-- Update of the first buff whose `type` matches, mirroring the JS mutation
of the object returned by `find` in `applyBuff`. -/
def refreshBuff : List Buff → String → ℚ → List Buff
  | [], _, _ => []
  | b :: rest, ty, et =>
    if b.type = ty then { b with endTime := et } :: rest
    else b :: refreshBuff rest ty et

/-- battle-service `applyBuff(battleState, character, time, buff)`: refresh
the `endTime` of an existing buff of the same `type`, else push the buff. -/
def applyBuff (st : BattleState) (i : Bool) (time : ℚ) (buff : Buff) : BattleState :=
  let character := st.getChar i
  match character.buffs.find? (fun b => b.type = buff.type) with
  | some _ =>
    let st := st.updChar i
      (fun c => { c with buffs := refreshBuff c.buffs buff.type (time + buff.duration) })
    st.pushLog (createLogEntry time
      (character.name ++ ("\x27s " ++ buff.name ++ " is refreshed (" ++
        toString buff.duration ++ " seconds)")))
  | none =>
    let st := st.updChar i (fun c => { c with buffs := c.buffs ++ [buff] })
    st.pushLog (createLogEntry time
      (character.name ++ (" gains " ++ buff.name ++ " for " ++
        toString buff.duration ++ " seconds")))

/-- Update (endTime and proc timer) of the first periodic effect whose
`type` matches, mirroring the JS mutation in `applyPeriodicEffect`. -/
def refreshPeriodic : List PeriodicEffect → String → ℚ → ℚ → List PeriodicEffect
  | [], _, _, _ => []
  | e :: rest, ty, et, now =>
    if e.type = ty then { e with endTime := et, lastProcTime := now } :: rest
    else e :: refreshPeriodic rest ty et now

/-- battle-service `applyPeriodicEffect(battleState, source, target, time, effect)`:
refresh `endTime` and reset `lastProcTime` on an existing effect of the same
`type`, else push the effect tagged with the source's name. -/
def applyPeriodicEffect (st : BattleState) (src tgt : Bool) (time : ℚ)
    (effect : PeriodicEffect) : BattleState :=
  let source := st.getChar src
  let target := st.getChar tgt
  match target.periodicEffects.find? (fun e => e.type = effect.type) with
  | some _ =>
    let newEffs := fun (c : Character) =>
      refreshPeriodic c.periodicEffects effect.type (time + effect.duration) time
    let st := st.updChar tgt (fun c => { c with periodicEffects := newEffs c })
    st.pushLog (createLogEntry time
      (target.name ++ ("\x27s " ++ effect.name ++ " is refreshed (" ++
        toString effect.duration ++ " seconds)")))
  | none =>
    let st := st.updChar tgt
      (fun c => { c with periodicEffects := c.periodicEffects ++ [{ effect with sourceName := source.name }] })
    st.pushLog (createLogEntry time
      (target.name ++ (" is affected by " ++ effect.name ++ " for " ++
        toString effect.duration ++ " seconds")))

/-- Result record returned by the two attack functions. -/
structure AttackResult where
  damage : ℚ
  isCritical : Bool
  baseDamage : ℚ
deriving Repr, DecidableEq

/-- Damage-increase pass shared by `performPhysicalAttack` and
`performMagicAttack`: every `damageIncrease` buff multiplies the running
damage by `1 + amount/100` and re-rounds. -/
def applyDamageBuffs (buffs : List Buff) (d : ℚ) : ℚ :=
  buffs.foldl
    (fun dmg b => if b.type = "damageIncrease" then jsRound (dmg * (1 + b.amount / 100)) else dmg) d

/-- battle-service `performPhysicalAttack`: random base roll, multiplier,
damage buffs, (possibly guaranteed) critical doubling, then defender's
capped physical reduction; the defender's health is decremented and the
attack is logged. -/
def performPhysicalAttack (st : BattleState) (atk : Bool) (time : ℚ) (attackName : String)
    (multiplier : ℚ) (guaranteedCrit : Bool) : BattleState × AttackResult :=
  let attacker := st.getChar atk
  let r1 := st.nextRand
  let st := r1.2
  let baseDamage0 := randomInt r1.1 attacker.stats.minPhysicalDamage attacker.stats.maxPhysicalDamage
  let baseDamage1 := jsRound (baseDamage0 * multiplier)
  let baseDamage2 := applyDamageBuffs attacker.buffs baseDamage1
  let critRes :=
    if guaranteedCrit then (true, st)
    else
      let r2 := st.nextRand
      (calculateCritical r2.1 attacker.stats.criticalChance, r2.2)
  let isCrit := critRes.1
  let st := critRes.2
  let baseDamage3 := if isCrit then jsRound (baseDamage2 * 2) else baseDamage2
  let defender := st.getChar (!atk)
  let damageReduction := defender.buffs.foldl
    (fun s b => if b.type = "physicalReduction" then s + b.amount / 100 else s)
    (defender.stats.physicalDamageReduction / 100)
  let finalDamage := applyDamageReduction baseDamage3 (damageReduction * 100)
  let st := st.updChar (!atk) (fun c => { c with currentHealth := c.currentHealth - finalDamage })
  let st := st.pushLog (createLogEntry time
    (attacker.name ++ (" uses " ++ attackName ++ (if isCrit then " (CRITICAL)" else "") ++
      " on " ++ defender.name ++ " for " ++ toString finalDamage ++ " physical damage")))
  let st :=
    if (st.getChar (!atk)).currentHealth ≤ 0 then
      st.pushLog (createLogEntry time (defender.name ++ " has been defeated!"))
    else st
  (st, { damage := finalDamage, isCritical := isCrit, baseDamage := baseDamage3 })

/-- battle-service `performMagicAttack`: like the physical attack but on
magic stats, with an optional `baseCritBonus` looked up from the ability
catalog by attack name, and `magicReduction` buffs on the defender. -/
def performMagicAttack (cat : Catalog) (st : BattleState) (atk : Bool) (time : ℚ)
    (attackName : String) (multiplier : ℚ) : BattleState × AttackResult :=
  let attacker := st.getChar atk
  let r1 := st.nextRand
  let st := r1.2
  let baseDamage0 := randomInt r1.1 attacker.stats.minMagicDamage attacker.stats.maxMagicDamage
  let baseDamage1 := jsRound (baseDamage0 * multiplier)
  let baseDamage2 := applyDamageBuffs attacker.buffs baseDamage1
  let ability := getAbilityByName cat attackName
  let critChance := attacker.stats.spellCritChance +
    (match ability with
     | some a => jsOr a.baseCritBonus 0
     | none => 0)
  let r2 := st.nextRand
  let st := r2.2
  let isCrit := calculateCritical r2.1 critChance
  let baseDamage3 := if isCrit then jsRound (baseDamage2 * 2) else baseDamage2
  let defender := st.getChar (!atk)
  let damageReduction := defender.buffs.foldl
    (fun s b => if b.type = "magicReduction" then s + b.amount / 100 else s)
    (defender.stats.magicDamageReduction / 100)
  let finalDamage := applyDamageReduction baseDamage3 (damageReduction * 100)
  let st := st.updChar (!atk) (fun c => { c with currentHealth := c.currentHealth - finalDamage })
  let st := st.pushLog (createLogEntry time
    (attacker.name ++ (" casts " ++ attackName ++ (if isCrit then " (CRITICAL)" else "") ++
      " on " ++ defender.name ++ " for " ++ toString finalDamage ++ " magic damage")))
  let st :=
    if (st.getChar (!atk)).currentHealth ≤ 0 then
      st.pushLog (createLogEntry time (defender.name ++ " has been defeated!"))
    else st
  (st, { damage := finalDamage, isCritical := isCrit, baseDamage := baseDamage3 })

/-- battle-service `performBasicAttack`: fallback attack chosen by the
character's `attackType`. -/
def performBasicAttack (cat : Catalog) (st : BattleState) (atk : Bool) (time : ℚ) : BattleState :=
  if (st.getChar atk).attackType = "magic" then
    (performMagicAttack cat st atk time "Basic Magic Attack" 1).1
  else
    (performPhysicalAttack st atk time "Basic Attack" 1 false).1

/-- battle-service `applyHeal`: average magic damage times the heal
multiplier, clamped at max health; returns the amount actually applied. -/
def applyHeal (st : BattleState) (i : Bool) (time : ℚ) (healEffect : HealEffect) :
    BattleState × ℚ :=
  let c := st.getChar i
  let avgDamage := (c.stats.minMagicDamage + c.stats.maxMagicDamage) / 2
  let healAmount := jsRound (avgDamage * healEffect.multiplier)
  let previousHealth := c.currentHealth
  let newHealth := min c.stats.health (c.currentHealth + healAmount)
  let actualHeal := newHealth - previousHealth
  let st := st.updChar i (fun ch => { ch with currentHealth := newHealth })
  let st := st.pushLog (createLogEntry time
    (c.name ++ (" is healed for " ++ toString actualHeal ++ " health")))
  (st, actualHeal)

/-- Buff magnitude computed in `processBuffAbility`: flat `amount || 0`, or
the magic-damage-scaled `min(maxAmount, baseAmount + round(avgMagicDmg * scalingRate))`
with the source's defaults `0.2`, `15`, `35`. -/
def buffAmountOf (be : BuffEffect) (s : Stats) : ℚ :=
  if be.magicDamageScaling then
    let avgMagicDmg := (s.minMagicDamage + s.maxMagicDamage) / 2
    min (jsOr be.maxAmount 35) (jsOr be.baseAmount 15 + jsRound (avgMagicDmg * jsOr be.scalingRate (1/5)))
  else jsOr be.amount 0

/-- battle-service `processBuffAbility`: compute the buff amount, apply it to
self (or to the opponent when `targetsSelf === false`), then log a
type-specific message. -/
def processBuffAbility (st : BattleState) (atk : Bool) (time : ℚ) (a : Ability)
    (be : BuffEffect) (abilityMessage : String) : BattleState :=
  let attacker := st.getChar atk
  let defender := st.getChar (!atk)
  let buffAmount := buffAmountOf be attacker.stats
  let buffTarget := if be.targetsSelf = some false then !atk else atk
  let st := applyBuff st buffTarget time
    { name := a.name, type := be.type, amount := buffAmount,
      duration := be.duration, endTime := time + be.duration }
  if be.type = "physicalReduction" then
    st.pushLog (createLogEntry time
      (abilityMessage ++ (", increasing physical damage reduction by " ++ toString buffAmount ++
        "% for " ++ toString be.duration ++ " seconds")))
  else if be.type = "damageIncrease" then
    st.pushLog (createLogEntry time
      (abilityMessage ++ (", increasing damage by " ++ toString buffAmount ++
        "% for " ++ toString be.duration ++ " seconds")))
  else if be.type = "attackSpeedReduction" then
    st.pushLog (createLogEntry time
      (abilityMessage ++ (", slowing " ++ defender.name ++ "\x27s attack speed by " ++
        toString buffAmount ++ "% for " ++ toString be.duration ++ " seconds")))
  else
    st.pushLog (createLogEntry time
      (abilityMessage ++ (", applying " ++ be.type ++ " effect for " ++
        toString be.duration ++ " seconds")))

/-- battle-service `processHealAbility`. -/
def processHealAbility (st : BattleState) (atk : Bool) (time : ℚ)
    (healEffect : HealEffect) (abilityMessage : String) : BattleState :=
  let st := st.pushLog (createLogEntry time abilityMessage)
  (applyHeal st atk time healEffect).1

/-- battle-service `processDotAbility`: optional direct hit, then the DoT
periodic effect with its type capitalised as display name. -/
def processDotAbility (cat : Catalog) (st : BattleState) (atk : Bool) (time : ℚ)
    (a : Ability) (de : DotEffect) : BattleState :=
  let st :=
    if a.damage = some "physical" then
      (performPhysicalAttack st atk time a.name (jsOr a.damageMultiplier (11/10)) false).1
    else if a.damage = some "magic" then
      (performMagicAttack cat st atk time a.name (jsOr a.damageMultiplier (11/10))).1
    else st
  applyPeriodicEffect st atk (!atk) time
    { name := de.type.capitalize, type := de.type, damage := de.damage,
      duration := de.duration, interval := jsOr de.interval 1,
      lastProcTime := time, endTime := time + de.duration }

/-- battle-service `processPeriodicAbility`: apply the periodic effect; for
`manaDrain` the first proc fires immediately (target loses
`min(currentMana, amount)`, caster gains the full `amount` capped at max). -/
def processPeriodicAbility (st : BattleState) (atk : Bool) (time : ℚ) (a : Ability)
    (pe : PeriodicEffectDef) (abilityMessage : String) : BattleState :=
  let st := applyPeriodicEffect st atk (!atk) time
    { name := a.name, type := pe.type, amount := pe.amount, duration := pe.duration,
      interval := pe.interval, lastProcTime := time, endTime := time + pe.duration }
  if pe.type = "manaDrain" then
    let defender := st.getChar (!atk)
    let manaDrained := min defender.currentMana pe.amount
    let st := st.updChar (!atk) (fun c => { c with currentMana := c.currentMana - manaDrained })
    let st := st.updChar atk
      (fun c => { c with currentMana := min c.stats.mana (c.currentMana + pe.amount) })
    let attacker := st.getChar atk
    let st := st.pushLog (createLogEntry time
      (attacker.name ++ (" casts " ++ a.name ++ " on " ++ defender.name ++
        ", draining " ++ toString manaDrained ++ " mana")))
    if manaDrained > 0 then
      st.pushLog (createLogEntry (time + 1/10)
        (attacker.name ++ (" gains " ++ toString pe.amount ++ " mana from " ++ a.name)))
    else st
  else st.pushLog (createLogEntry time abilityMessage)

/-- battle-service `processDamageAbility`: direct damage ability with the
optional `selfDamagePercent` backlash and `criticalEffect` burning DoT on
magic attacks; falls back to a basic attack when no damage type is given. -/
def processDamageAbility (cat : Catalog) (st : BattleState) (atk : Bool) (time : ℚ)
    (a : Ability) : BattleState :=
  if a.damage = some "physical" then
    (performPhysicalAttack st atk time a.name (jsOr a.damageMultiplier 1) false).1
  else if a.damage = some "magic" then
    let res := performMagicAttack cat st atk time a.name (jsOr a.damageMultiplier (3/2))
    let st := res.1
    let attackResult := res.2
    let st :=
      if jsOr a.selfDamagePercent 0 ≠ 0 ∧ attackResult.damage > 0 then
        let selfDamage := jsRound (attackResult.damage * (jsOr a.selfDamagePercent 0 / 100))
        if selfDamage > 0 then
          let st := st.updChar atk
            (fun c => { c with currentHealth := c.currentHealth - selfDamage })
          let st := st.pushLog (createLogEntry (time + 1/10)
            ((st.getChar atk).name ++ (" takes " ++ toString selfDamage ++
              " damage from the backlash of " ++ a.name)))
          if (st.getChar atk).currentHealth ≤ 0 then
            st.pushLog (createLogEntry (time + 2/10)
              ((st.getChar atk).name ++ " has been defeated by their own spell!"))
          else st
        else st
      else st
    match a.criticalEffect with
    | some ce =>
      if attackResult.isCritical ∧ ce.type = "burning" then
        let attacker := st.getChar atk
        let avgMagicDmg := (attacker.stats.minMagicDamage + attacker.stats.maxMagicDamage) / 2
        let dotDamage := jsRound (avgMagicDmg * (ce.damagePercent / 100))
        let st := applyPeriodicEffect st atk (!atk) time
          { name := "Burning", type := "burning", damage := dotDamage,
            duration := ce.duration, interval := jsOr ce.interval 1,
            lastProcTime := time, endTime := time + ce.duration }
        st.pushLog (createLogEntry (time + 2/10)
          ((st.getChar (!atk)).name ++ (" is burning for " ++ toString dotDamage ++
            " damage per second for " ++ toString ce.duration ++ " seconds!")))
      else st
    | none => st
  else performBasicAttack cat st atk time

/-- The delayed hits 2..count of `processMultiAttackAbility`; each hit first
checks that the defender is still alive (the JS `break`). -/
def multiAttackExtraHits (cat : Catalog) (a : Ability) (atk : Bool) (time attackDelay : ℚ) :
    BattleState → ℕ → ℕ → BattleState
  | st, _, 0 => st
  | st, i, k + 1 =>
    if (st.getChar (!atk)).currentHealth ≤ 0 then st
    else
      let hitTime := time + 1/10 + (i : ℚ) * attackDelay
      let st :=
        if a.damage = some "magic" then
          (performMagicAttack cat st atk hitTime
            (a.name ++ (" (Hit " ++ toString (i + 1) ++ ")")) (jsOr a.damageMultiplier 1)).1
        else
          (performPhysicalAttack st atk hitTime
            (a.name ++ (" (Hit " ++ toString (i + 1) ++ ")")) (jsOr a.damageMultiplier 1) false).1
      multiAttackExtraHits cat a atk time attackDelay st (i + 1) k

/-- battle-service `processMultiAttackAbility`: an immediate first hit at
`time + 0.1` and `count - 1` further hits staggered by `delay`. -/
def processMultiAttackAbility (cat : Catalog) (st : BattleState) (atk : Bool) (time : ℚ)
    (a : Ability) (ma : MultiAttackDef) (abilityMessage : String) : BattleState :=
  let st := st.pushLog (createLogEntry time abilityMessage)
  let attackCount := jsOrN ma.count 2
  let attackDelay := jsOr ma.delay (1/2)
  let st :=
    if a.damage = some "magic" then
      (performMagicAttack cat st atk (time + 1/10)
        (a.name ++ " (Hit 1)") (jsOr a.damageMultiplier 1)).1
    else
      (performPhysicalAttack st atk (time + 1/10)
        (a.name ++ " (Hit 1)") (jsOr a.damageMultiplier 1) false).1
  multiAttackExtraHits cat a atk time attackDelay st 1 (attackCount - 1)

/-- battle-service `processAbility`: dispatch on the ability's effect shape
in the source's priority order. -/
def processAbility (cat : Catalog) (st : BattleState) (atk : Bool) (time : ℚ)
    (a : Ability) : BattleState :=
  let attacker := st.getChar atk
  let abilityMessage :=
    attacker.name ++ ((if a.type = "magic" then " casts " else " uses ") ++ a.name)
  match a.buffEffect with
  | some be => processBuffAbility st atk time a be abilityMessage
  | none =>
    match a.healEffect with
    | some he => processHealAbility st atk time he abilityMessage
    | none =>
      match a.dotEffect with
      | some de => processDotAbility cat st atk time a de
      | none =>
        match a.periodicEffect with
        | some pe => processPeriodicAbility st atk time a pe abilityMessage
        | none =>
          if a.guaranteedCrit then
            (performPhysicalAttack st atk time a.name (jsOr a.damageMultiplier (6/5)) true).1
          else
            match a.multiAttack with
            | some ma => processMultiAttackAbility cat st atk time a ma abilityMessage
            | none => processDamageAbility cat st atk time a

/-- Cooldown map lookup, `attacker.cooldowns[id] || 0`. -/
def cdLookup (cds : List (String × ℚ)) (abilityId : String) : ℚ :=
  match cds.find? (fun p => p.1 = abilityId) with
  | some p => p.2
  | none => 0

/-- Cooldown map assignment, `attacker.cooldowns[id] = v`. -/
def cdSet (cds : List (String × ℚ)) (abilityId : String) (v : ℚ) : List (String × ℚ) :=
  if cds.any (fun p => p.1 = abilityId) then
    cds.map (fun p => if p.1 = abilityId then (p.1, v) else p)
  else cds ++ [(abilityId, v)]

/-- battle-service `processAttack`: try the rotation ability at
`nextAbilityIndex`; if it is off cooldown, known, and affordable, spend the
mana, start the cooldown, process the ability and advance the rotation
index; otherwise fall back to a basic attack. -/
def processAttack (cat : Catalog) (st : BattleState) (atk : Bool) (time : ℚ) : BattleState :=
  let attacker := st.getChar atk
  match attacker.rotation.get? attacker.nextAbilityIndex with
  | some nextAbilityId =>
    let cooldownEnd := cdLookup attacker.cooldowns nextAbilityId
    if time ≥ cooldownEnd then
      match getAbility cat nextAbilityId with
      | some ability =>
        if hasEnoughMana attacker ability then
          let st := st.updChar atk
            (fun c => { c with currentMana := c.currentMana - jsOr ability.manaCost 0 })
          let st := st.updChar atk
            (fun c => { c with cooldowns := cdSet c.cooldowns ability.id (time + ability.cooldown) })
          let st := processAbility cat st atk time ability
          st.updChar atk
            (fun c => { c with nextAbilityIndex := (c.nextAbilityIndex + 1) % c.rotation.length })
        else performBasicAttack cat st atk time
      | none => performBasicAttack cat st atk time
    else performBasicAttack cat st atk time
  | none => performBasicAttack cat st atk time

/-- One periodic effect's tick-and-expiry processing inside
`processCharacterEffects`: dispatch by `type` when
`time >= lastProcTime + interval && time < endTime`, then remove the effect
(returning `none`) when `time >= endTime`. -/
def procOneEffect (st : BattleState) (who : Bool) (time : ℚ) (e : PeriodicEffect) :
    BattleState × Option PeriodicEffect :=
  let ticked :=
    if time ≥ e.lastProcTime + e.interval ∧ time < e.endTime then
      let st :=
        if e.type = "poison" then
          let st := st.updChar who
            (fun c => { c with currentHealth := c.currentHealth - e.damage })
          let st := st.pushLog (createLogEntry time
            ((st.getChar who).name ++ (" takes " ++ toString e.damage ++ " damage from " ++ e.name)))
          if (st.getChar who).currentHealth ≤ 0 then
            st.pushLog (createLogEntry time
              ((st.getChar who).name ++ (" has been defeated by " ++ e.name ++ "!")))
          else st
        else if e.type = "burning" then
          let st := st.updChar who
            (fun c => { c with currentHealth := c.currentHealth - e.damage })
          let st := st.pushLog (createLogEntry time
            ((st.getChar who).name ++ (" takes " ++ toString e.damage ++ " damage from " ++ e.name)))
          if (st.getChar who).currentHealth ≤ 0 then
            st.pushLog (createLogEntry time
              ((st.getChar who).name ++ " has been burned to ash!"))
          else st
        else if e.type = "manaDrain" then
          let srcIsC1 := e.sourceName = st.character1.name
          let manaDrained := min (st.getChar who).currentMana e.amount
          let st := st.updChar who
            (fun c => { c with currentMana := c.currentMana - manaDrained })
          let st := st.updChar srcIsC1
            (fun c => { c with currentMana := min c.stats.mana (c.currentMana + e.amount) })
          if manaDrained > 0 then
            let st := st.pushLog (createLogEntry time
              ((st.getChar who).name ++ (" loses " ++ toString manaDrained ++ " mana from " ++ e.name)))
            st.pushLog (createLogEntry (time + 1/10)
              ((st.getChar srcIsC1).name ++ (" gains " ++ toString e.amount ++ " mana from " ++ e.name)))
          else st
        else if e.type = "regeneration" then
          let st := st.updChar who
            (fun c => { c with currentHealth := min c.stats.health (c.currentHealth + e.amount) })
          st.pushLog (createLogEntry time
            ((st.getChar who).name ++ (" regenerates " ++ toString e.amount ++ " health from " ++ e.name)))
        else if e.type = "manaRegen" then
          let st := st.updChar who
            (fun c => { c with currentMana := min c.stats.mana (c.currentMana + e.amount) })
          st.pushLog (createLogEntry time
            ((st.getChar who).name ++ (" regenerates " ++ toString e.amount ++ " mana from " ++ e.name)))
        else st
      (st, { e with lastProcTime := time })
    else (st, e)
  let st := ticked.1
  let e := ticked.2
  if time ≥ e.endTime then
    (st.pushLog (createLogEntry time
      (e.name ++ (" effect on " ++ (st.getChar who).name ++ " has expired"))), none)
  else (st, some e)

/-- The downward `for (i = length-1; i >= 0; i--)` walk over the periodic
effects array: later entries are processed before earlier ones, and removal
splices only the current entry. -/
def procEffectList (who : Bool) (time : ℚ) :
    BattleState → List PeriodicEffect → BattleState × List PeriodicEffect
  | st, [] => (st, [])
  | st, e :: rest =>
    let r := procEffectList who time st rest
    let one := procOneEffect r.1 who time e
    (one.1, match one.2 with
      | some e1 => e1 :: r.2
      | none => r.2)

/-- The downward expiry walk over the buffs array in
`processCharacterEffects`. -/
def expireBuffs (who : Bool) (time : ℚ) :
    BattleState → List Buff → BattleState × List Buff
  | st, [] => (st, [])
  | st, b :: rest =>
    let r := expireBuffs who time st rest
    if time ≥ b.endTime then
      (r.1.pushLog (createLogEntry time
        (b.name ++ (" buff on " ++ (r.1.getChar who).name ++ " has expired"))), r.2)
    else (r.1, b :: r.2)

/-- battle-service `processCharacterEffects`: tick and expire one
character's periodic effects, then expire its buffs. -/
def processCharacterEffects (st : BattleState) (who : Bool) (time : ℚ) : BattleState :=
  let r := procEffectList who time st (st.getChar who).periodicEffects
  let st := r.1.updChar who (fun c => { c with periodicEffects := r.2 })
  let rb := expireBuffs who time st (st.getChar who).buffs
  rb.1.updChar who (fun c => { c with buffs := rb.2 })

/-- battle-service `processEffects`: character1's effects first, then
character2's. -/
def processEffects (st : BattleState) (time : ℚ) : BattleState :=
  processCharacterEffects (processCharacterEffects st true time) false time

/-- State of `simulateBattle`'s while loop: the battle state plus the two
next-attack clocks and the current battle time. -/
structure LoopState where
  st : BattleState
  char1NextAttack : ℚ
  char2NextAttack : ℚ
  battleTime : ℚ

/-- The while-loop guard of `simulateBattle`: both alive and under the
300-second cap. -/
def loopCond (ls : LoopState) : Bool :=
  decide (ls.st.character1.currentHealth > 0) &&
    (decide (ls.st.character2.currentHealth > 0) && decide (ls.battleTime < 300))

/-- One iteration of `simulateBattle`'s loop: the combatant with the smaller
next-attack clock acts (ties favour combatant 1), `battleTime` jumps to that
clock, the actor's clock advances by its post-action effective attack speed,
then periodic effects and buff expiry run for both sides. -/
def battleStep (cat : Catalog) (ls : LoopState) : LoopState :=
  if ls.char1NextAttack ≤ ls.char2NextAttack then
    let battleTime := ls.char1NextAttack
    let st := processAttack cat ls.st true battleTime
    let n1 := ls.char1NextAttack + getEffectiveAttackSpeed st.character1
    let st := processEffects st battleTime
    { st := { st with rounds := st.rounds + 1 },
      char1NextAttack := n1, char2NextAttack := ls.char2NextAttack, battleTime := battleTime }
  else
    let battleTime := ls.char2NextAttack
    let st := processAttack cat ls.st false battleTime
    let n2 := ls.char2NextAttack + getEffectiveAttackSpeed st.character2
    let st := processEffects st battleTime
    { st := { st with rounds := st.rounds + 1 },
      char1NextAttack := ls.char1NextAttack, char2NextAttack := n2, battleTime := battleTime }

/-- Fuelled unfolding of `simulateBattle`'s while loop; `none` means the
fuel ran out with the guard still true (the JS loop has no fuel, so any
`some` result is the loop's actual outcome). -/
def runBattleLoop (cat : Catalog) : ℕ → LoopState → Option LoopState
  | 0, ls => if loopCond ls then none else some ls
  | fuel + 1, ls => if loopCond ls then runBattleLoop cat fuel (battleStep cat ls) else some ls

/-- Persisted character record, as read from `characters.json` (the fields
the battle engine consumes). -/
structure CharacterRecord where
  id : String
  name : String
  playerId : String := ""
  stats : Stats
  rotation : List String := []
  attackType : String := "physical"
deriving Repr, DecidableEq

/-- character-model `createBattleState`: spread of the record plus full
health/mana, empty cooldowns, effects and buffs, rotation index 0. -/
def createCharacterBattleState (c : CharacterRecord) : Character :=
  { id := c.id, name := c.name, playerId := c.playerId, stats := c.stats,
    currentHealth := c.stats.health, currentMana := c.stats.mana,
    rotation := c.rotation, nextAbilityIndex := 0, attackType := c.attackType,
    cooldowns := [], buffs := [], periodicEffects := [] }

/-- battle-model `initializeBattleLog`: the three opening log lines. -/
def initializeBattleLog (st : BattleState) : BattleState :=
  let c1 := st.character1
  let c2 := st.character2
  let st := st.pushLog (createLogEntry 0
    ("Battle started between " ++ c1.name ++ " and " ++ c2.name))
  let st := st.pushLog (createLogEntry (1/10)
    (c1.name ++ (": " ++ toString c1.currentHealth ++ " health, " ++
      toString c1.currentMana ++ " mana")))
  st.pushLog (createLogEntry (2/10)
    (c2.name ++ (": " ++ toString c2.currentHealth ++ " health, " ++
      toString c2.currentMana ++ " mana")))

/-- Battle result as produced by `formatBattleResult` in `battle-model.js`,
restricted to the outcome fields; the uuid, wall-clock timestamp and
experience numbers are I/O-derived metadata outside every claim. -/
structure BattleResult where
  winner : Option String := none
  log : List LogEntry := []
  rounds : ℕ := 0
  isMatchmade : Bool := false

/-- battle-model `formatBattleResult` (outcome fields: the `winner` is
passed through verbatim from the battle state). -/
def formatBattleResult (st : BattleState) (isMatchmade : Bool) : BattleResult :=
  { winner := st.winner, log := st.log, rounds := st.rounds, isMatchmade := isMatchmade }

/-- battle-service `simulateBattle`, with the while loop unfolded on an
explicit fuel: build both battle states, run the loop, determine the winner
and format the result.  `none` only when the fuel is insufficient. -/
def simulateBattle (cat : Catalog) (rolls : ℕ → ℚ) (fuel : ℕ)
    (character1 character2 : CharacterRecord) (isMatchmade : Bool) :
    Option (BattleResult × LoopState) :=
  let st0 : BattleState :=
    { character1 := createCharacterBattleState character1,
      character2 := createCharacterBattleState character2, rolls := rolls }
  let st0 := initializeBattleLog st0
  match runBattleLoop cat fuel
      { st := st0, char1NextAttack := 0, char2NextAttack := 0, battleTime := 0 } with
  | none => none
  | some ls =>
    let stF := determineWinner ls.st ls.battleTime
    some (formatBattleResult stF isMatchmade, { ls with st := stF })

/-- Matchmaking queue entry (`matchmaking.js`); the ISO timestamp string is
modelled as an abstract counter. -/
structure QueueEntry where
  characterId : String
  playerId : String
  timestamp : ℕ := 0
deriving Repr, DecidableEq

/-- matchmaking `findMatch`, queue manipulation: find the first waiting
entry with a different `characterId` AND a different `playerId`; on success
both parties' entries are filtered out of the queue.  The battle kick-off
and the pending-notification store are handled by `addToQueue` below. -/
def findMatch (queue : List QueueEntry) (characterId playerId : String) :
    Option (QueueEntry × List QueueEntry) :=
  match queue.find? (fun e => ¬ e.characterId = characterId ∧ ¬ e.playerId = playerId) with
  | none => none
  | some opponent =>
    some (opponent,
      queue.filter (fun e => ¬ e.characterId = characterId ∧ ¬ e.characterId = opponent.characterId))

/-- In-memory matchmaking module state: the waiting list and the pending
match notifications keyed by character id (mapped to the opponent id). -/
structure MatchmakingState where
  queue : List QueueEntry := []
  pendingNotifications : List (String × String) := []
deriving Repr, DecidableEq

/-- Outcome of `addToQueue`, reduced to the pairing decision: the matched
opponent's character id when a match was produced or delivered, else none. -/
structure QueueOutcome where
  matchedOpponent : Option String := none
deriving Repr, DecidableEq

/-- matchmaking `addToQueue`: consume a pending notification if present;
refresh the timestamp if already queued; otherwise insert and try
`findMatch`, storing a notification for the matched opponent. -/
def addToQueue (mm : MatchmakingState) (characterId playerId : String) (ts : ℕ) :
    MatchmakingState × QueueOutcome :=
  match mm.pendingNotifications.find? (fun p => p.1 = characterId) with
  | some p =>
    ({ mm with pendingNotifications := mm.pendingNotifications.filter (fun q => ¬ q.1 = characterId) },
      { matchedOpponent := some p.2 })
  | none =>
    if mm.queue.any (fun e => e.characterId = characterId) then
      let refreshed :=
        mm.queue.map (fun e => if e.characterId = characterId then { e with timestamp := ts } else e)
      ({ mm with queue := refreshed }, { matchedOpponent := none })
    else
      let queue1 := mm.queue ++ [{ characterId := characterId, playerId := playerId, timestamp := ts }]
      match findMatch queue1 characterId playerId with
      | some r =>
        ({ queue := r.2,
           pendingNotifications := mm.pendingNotifications ++ [(r.1.characterId, characterId)] },
          { matchedOpponent := some r.1.characterId })
      | none => ({ mm with queue := queue1 }, { matchedOpponent := none })

/-- Concrete stats record used by witness instantiations. -/
def wStats : Stats :=
  { health := 100, mana := 50, minPhysicalDamage := 5, maxPhysicalDamage := 10,
    minMagicDamage := 5, maxMagicDamage := 10, attackSpeed := 5, criticalChance := 0,
    spellCritChance := 0, physicalDamageReduction := 0, magicDamageReduction := 0 }

/-- Concrete combatant used by witness instantiations. -/
def wChar (idv nm : String) (h m : ℚ) : Character :=
  { id := idv, name := nm, stats := wStats, currentHealth := h, currentMana := m }

/-- Concrete two-combatant battle state used by witness instantiations. -/
def wState (h1 h2 : ℚ) : BattleState :=
  { character1 := wChar "c1" "A" h1 50, character2 := wChar "c2" "B" h2 50,
    rolls := fun _ => 0 }

/-- Concrete buff (damage increase) used by witness instantiations. -/
def wBuff1 : Buff :=
  { name := "Rage", type := "damageIncrease", amount := 20, duration := 10, endTime := 10 }

/-- Re-application of the same buff type with a different duration. -/
def wBuff2 : Buff :=
  { name := "Rage", type := "damageIncrease", amount := 20, duration := 8, endTime := 13 }

/-- A buff of a type not yet present on the witness character. -/
def wBuffN : Buff :=
  { name := "Stone Skin", type := "physicalReduction", amount := 15, duration := 6, endTime := 11 }

/-- Concrete poison effect used by witness instantiations. -/
def wEff1 : PeriodicEffect :=
  { name := "Poison", type := "poison", damage := 10, duration := 6, interval := 2,
    lastProcTime := 0, endTime := 6, sourceName := "B" }

/-- Re-application of the same periodic-effect type. -/
def wEff2 : PeriodicEffect :=
  { name := "Poison", type := "poison", damage := 10, duration := 6, interval := 2,
    lastProcTime := 5, endTime := 11, sourceName := "B" }

/-- Witness battle state whose first character carries one buff and one
periodic effect. -/
def wBuffSt : BattleState :=
  { character1 := { wChar "c1" "A" 80 50 with buffs := [wBuff1], periodicEffects := [wEff1] },
    character2 := wChar "c2" "B" 90 50,
    rolls := fun _ => 0 }

/-- Stats for the buff-order counterexample: a deterministic damage roll. -/
def cxStats : Stats :=
  { health := 100, mana := 50, minPhysicalDamage := 2, maxPhysicalDamage := 2,
    minMagicDamage := 2, maxMagicDamage := 2, attackSpeed := 5, criticalChance := 0,
    spellCritChance := 0, physicalDamageReduction := 0, magicDamageReduction := 0 }

/-- First damage-increase buff (20%) of the counterexample. -/
def cxBuffA : Buff :=
  { name := "BuffA", type := "damageIncrease", amount := 20, duration := 10, endTime := 10 }

/-- Second damage-increase buff (30%) of the counterexample. -/
def cxBuffB : Buff :=
  { name := "BuffB", type := "damageIncrease", amount := 30, duration := 10, endTime := 10 }

/-- Battle state of the buff-order counterexample, parameterised by the
attacker's buff list. -/
def cxState (l : List Buff) : BattleState :=
  { character1 := { wChar "c1" "A" 100 50 with stats := cxStats, buffs := l },
    character2 := { wChar "c2" "B" 100 50 with stats := cxStats },
    rolls := fun _ => 1/2 }

/-- Witness battle state with one damage-increase and one unrelated buff on
the attacker, for the order-independence witness. -/
def wPermSt : BattleState :=
  { character1 := { wChar "c1" "A" 80 50 with buffs := [wBuff1, wBuffN] },
    character2 := wChar "c2" "B" 90 50,
    rolls := fun _ => 0 }

/-- Drive `processCharacterEffects` for character 1 at a list of successive
battle times (the loop invokes it once per iteration). -/
def runEffectsAt (st : BattleState) (ts : List ℚ) : BattleState :=
  ts.foldl (fun s t => processCharacterEffects s true t) st

/-- Witness battle state whose first character carries the poison effect
`wEff1` (duration 6, interval 2, applied at t = 0). -/
def wEffSt : BattleState :=
  { character1 := { wChar "c1" "A" 80 50 with periodicEffects := [wEff1] },
    character2 := wChar "c2" "B" 90 50,
    rolls := fun _ => 0 }

/-- Mana-drain effect sourced by character `A`, for the mana-drain claims. -/
def wDrainEff : PeriodicEffect :=
  { name := "Drain", type := "manaDrain", amount := 10, duration := 10, interval := 2,
    lastProcTime := 0, endTime := 10, sourceName := "A" }

/-- Battle state for the mana-drain counterexample: the target (character 2)
has zero mana, the source (character 1) has 5 of 50 mana. -/
def wDrainSt : BattleState :=
  { character1 := wChar "c1" "A" 80 5,
    character2 := { wChar "c2" "B" 90 0 with periodicEffects := [wDrainEff] },
    rolls := fun _ => 0 }

/-- Mana-drain periodic ability effect used for the immediate first proc. -/
def wPeDef : PeriodicEffectDef :=
  { type := "manaDrain", amount := 10, duration := 10, interval := 2 }

/-- Minimal ability record carrying the mana-drain periodic effect. -/
def wAbility : Ability :=
  { id := "md", name := "Mana Leech" }

/-- Modelled from the spec's formula for comparison with the source fold:
effective attack speed as `baseAttackSpeed * Π(1 + amount/100)` over the
active `attackSpeedReduction` buffs. -/
def specEffectiveAttackSpeed (c : Character) : ℚ :=
  c.stats.attackSpeed *
    ((c.buffs.filter (fun b => b.type = "attackSpeedReduction")).map
      (fun b => 1 + b.amount / 100)).prod

/-- Concrete loop state (combatant 1 due first) for the scheduler witness. -/
def wLoop1 : LoopState :=
  { st := wState 50 50, char1NextAttack := 0, char2NextAttack := 2, battleTime := 0 }

/-- Concrete loop state (combatant 2 due first) for the scheduler witness. -/
def wLoop2 : LoopState :=
  { st := wState 50 50, char1NextAttack := 3, char2NextAttack := 2, battleTime := 0 }

/-- Concrete waiting list for the matchmaking witness: two characters of
player X and one of player Y. -/
def wQueue : List QueueEntry :=
  [{ characterId := "A", playerId := "X", timestamp := 0 },
   { characterId := "B", playerId := "X", timestamp := 1 },
   { characterId := "C", playerId := "Y", timestamp := 2 }]

/-- Invariant for the termination argument: both combatants keep their
input stats, and every active `attackSpeedReduction` buff has a
non-negative amount, so each speed factor `1 + amount/100` is at least 1. -/
def SpeedInv (s1 s2 : Stats) (st : BattleState) : Prop :=
  st.character1.stats = s1 ∧ st.character2.stats = s2 ∧
  (∀ b ∈ st.character1.buffs, b.type = "attackSpeedReduction" → 0 ≤ b.amount) ∧
  (∀ b ∈ st.character2.buffs, b.type = "attackSpeedReduction" → 0 ≤ b.amount)

/-- Catalog-validity hypothesis for the termination claim: no catalog
ability produces an `attackSpeedReduction` buff with a negative amount for
either combatant's stats (live ability data uses positive slow
percentages). -/
def CatalogSafe (cat : Catalog) (s1 s2 : Stats) : Prop :=
  ∀ a ∈ cat, ∀ be, a.buffEffect = some be → be.type = "attackSpeedReduction" →
    0 ≤ buffAmountOf be s1 ∧ 0 ≤ buffAmountOf be s2

/-- Fuel still needed for one next-attack clock before it passes the
300-second cap, when every step advances it by at least `δ`. -/
def clockFuel (δ n : ℚ) : ℕ := (⌈(300 - n) / δ⌉ + 1).toNat

/-- Termination measure of the battle loop. -/
def loopMeasure (δ : ℚ) (ls : LoopState) : ℕ :=
  clockFuel δ ls.char1NextAttack + clockFuel δ ls.char2NextAttack

/-- Sufficient loop fuel for a battle between combatants with these stats. -/
def battleFuel (s1 s2 : Stats) : ℕ :=
  2 * (⌈(300 : ℚ) / min s1.attackSpeed s2.attackSpeed⌉ + 1).toNat + 1

/-- Concrete persisted character records for the termination witness. -/
def wRec1 : CharacterRecord := { id := "c1", name := "A", stats := wStats }

/-- Second concrete persisted character record. -/
def wRec2 : CharacterRecord := { id := "c2", name := "B", stats := wStats }

theorem logFinalState_winner (st : BattleState) (t : ℚ) :
    (logFinalState st t).winner = st.winner := by
  simp [logFinalState, BattleState.pushLog]

theorem pushLog_winner (st : BattleState) (e : LogEntry) :
    (st.pushLog e).winner = st.winner := rfl

theorem getChar_updChar_same (st : BattleState) (i : Bool) (f : Character → Character) :
    (st.updChar i f).getChar i = f (st.getChar i) := by
  cases i <;> simp [BattleState.updChar, BattleState.setChar, BattleState.getChar]

theorem getChar_updChar_other (st : BattleState) (i : Bool) (f : Character → Character) :
    (st.updChar i f).getChar (!i) = st.getChar (!i) := by
  cases i <;> simp [BattleState.updChar, BattleState.setChar, BattleState.getChar]

theorem getChar_pushLog (st : BattleState) (e : LogEntry) (i : Bool) :
    (st.pushLog e).getChar i = st.getChar i := by
  cases i <;> simp [BattleState.pushLog, BattleState.getChar]

theorem rolls_updChar (st : BattleState) (i : Bool) (f : Character → Character) :
    (st.updChar i f).rolls = st.rolls := by
  cases i <;> simp [BattleState.updChar, BattleState.setChar]

theorem rngIdx_updChar (st : BattleState) (i : Bool) (f : Character → Character) :
    (st.updChar i f).rngIdx = st.rngIdx := by
  cases i <;> simp [BattleState.updChar, BattleState.setChar]

/-- C1: when the loop ends with one combatant's `currentHealth ≤ 0` and the
other still alive, the surviving combatant's id is the winner; when both are
alive at the time cap, the strictly greater `currentHealth/maxHealth`
percentage wins and exact equality of the percentages gives `winner = null`. -/
theorem determineWinner_rule (st : BattleState) (t : ℚ) :
    (st.character1.currentHealth ≤ 0 → 0 < st.character2.currentHealth →
      (determineWinner st t).winner = some st.character2.id) ∧
    (st.character2.currentHealth ≤ 0 → 0 < st.character1.currentHealth →
      (determineWinner st t).winner = some st.character1.id) ∧
    (0 < st.character1.currentHealth → 0 < st.character2.currentHealth →
      ((st.character1.currentHealth / st.character1.stats.health * 100 >
          st.character2.currentHealth / st.character2.stats.health * 100 →
        (determineWinner st t).winner = some st.character1.id) ∧
       (st.character2.currentHealth / st.character2.stats.health * 100 >
          st.character1.currentHealth / st.character1.stats.health * 100 →
        (determineWinner st t).winner = some st.character2.id) ∧
       (st.character1.currentHealth / st.character1.stats.health * 100 =
          st.character2.currentHealth / st.character2.stats.health * 100 →
        (determineWinner st t).winner = none))) := by
  refine ⟨fun h1 _ => ?_, fun h2 h1 => ?_, fun h1 h2 => ⟨fun hp => ?_, fun hp => ?_, fun hp => ?_⟩⟩
  · simp [determineWinner, h1, logFinalState_winner, pushLog_winner]
  · simp [determineWinner, h2, not_le.mpr h1, logFinalState_winner, pushLog_winner]
  · simp [determineWinner, not_le.mpr h1, not_le.mpr h2, hp,
      logFinalState_winner, pushLog_winner]
  · simp [determineWinner, not_le.mpr h1, not_le.mpr h2, hp, not_lt_of_gt hp,
      logFinalState_winner, pushLog_winner]
  · simp [determineWinner, not_le.mpr h1, not_le.mpr h2, hp,
      logFinalState_winner, pushLog_winner]

/-- C1 witness: concrete instantiations discharging each hypothesis of
`determineWinner_rule` (a defeated side, and the exact 40%/40% draw). -/
theorem determineWinner_rule_witness :
    ((wState 0 50).character1.currentHealth ≤ 0 ∧ 0 < (wState 0 50).character2.currentHealth ∧
      (determineWinner (wState 0 50) 10).winner = some (wState 0 50).character2.id) ∧
    (0 < (wState 40 40).character1.currentHealth ∧ 0 < (wState 40 40).character2.currentHealth ∧
      (wState 40 40).character1.currentHealth / (wState 40 40).character1.stats.health * 100 =
        (wState 40 40).character2.currentHealth / (wState 40 40).character2.stats.health * 100 ∧
      (determineWinner (wState 40 40) 300).winner = none) :=
  ⟨⟨by decide, by decide, (determineWinner_rule (wState 0 50) 10).1 (by decide) (by decide)⟩,
   ⟨by decide, by decide, by norm_num [wState, wChar, wStats],
    ((determineWinner_rule (wState 40 40) 300).2.2 (by decide) (by decide)).2.2
      (by norm_num [wState, wChar, wStats])⟩⟩

/-- C10: with both combatants dead (`currentHealth ≤ 0` on both sides, as a
`selfDamagePercent` backlash can produce), `determineWinner` declares
`character2` the winner because `character1`'s defeat is checked first; and
`winner = null` arises only on the time-cap path with both alive and exactly
equal health percentages. -/
theorem determineWinner_bothDead (st : BattleState) (t : ℚ) :
    (st.character1.currentHealth ≤ 0 →
      (determineWinner st t).winner = some st.character2.id) ∧
    ((determineWinner st t).winner = none →
      0 < st.character1.currentHealth ∧ 0 < st.character2.currentHealth ∧
      st.character1.currentHealth / st.character1.stats.health * 100 =
        st.character2.currentHealth / st.character2.stats.health * 100) := by
  constructor
  · intro h1
    simp [determineWinner, h1, logFinalState_winner, pushLog_winner]
  · intro hw
    by_cases h1 : st.character1.currentHealth ≤ 0
    · simp [determineWinner, h1, logFinalState_winner, pushLog_winner] at hw
    · by_cases h2 : st.character2.currentHealth ≤ 0
      · simp [determineWinner, h1, h2, logFinalState_winner, pushLog_winner] at hw
      · refine ⟨not_le.mp h1, not_le.mp h2, ?_⟩
        by_cases hgt : st.character1.currentHealth / st.character1.stats.health * 100 >
            st.character2.currentHealth / st.character2.stats.health * 100
        · simp [determineWinner, h1, h2, hgt, logFinalState_winner, pushLog_winner] at hw
        · by_cases hlt : st.character2.currentHealth / st.character2.stats.health * 100 >
              st.character1.currentHealth / st.character1.stats.health * 100
          · simp [determineWinner, h1, h2, hgt, hlt, logFinalState_winner, pushLog_winner] at hw
          · exact le_antisymm (not_lt.mp hgt) (not_lt.mp hlt)

/-- C10 witness: a both-dead state (both `currentHealth ≤ 0`) on which
`determineWinner` hands the win to `character2`. -/
theorem determineWinner_bothDead_witness :
    ((wState (-5) (-3)).character1.currentHealth ≤ 0 ∧
      (determineWinner (wState (-5) (-3)) 10).winner = some (wState (-5) (-3)).character2.id) ∧
    ((determineWinner (wState 40 40) 300).winner = none ∧
      0 < (wState 40 40).character1.currentHealth) :=
  ⟨⟨by decide, (determineWinner_bothDead (wState (-5) (-3)) 10).1 (by decide)⟩,
   ⟨by norm_num [determineWinner, wState, wChar, wStats, logFinalState_winner, pushLog_winner],
    ((determineWinner_bothDead (wState 40 40) 300).2
      (by norm_num [determineWinner, wState, wChar, wStats, logFinalState_winner,
        pushLog_winner])).1⟩⟩

theorem one_le_applyDamageReduction (baseDamage damageReduction : ℚ) :
    1 ≤ applyDamageReduction baseDamage damageReduction := by
  unfold applyDamageReduction
  exact le_max_left _ _

theorem applyDamageReduction_cap (baseDamage damageReduction : ℚ)
    (h : 80 ≤ damageReduction) :
    applyDamageReduction baseDamage damageReduction = applyDamageReduction baseDamage 80 := by
  unfold applyDamageReduction
  rw [min_eq_left (by linarith : (4/5 : ℚ) ≤ damageReduction / 100),
    min_eq_left (by norm_num : (4/5 : ℚ) ≤ 80 / 100)]

theorem performPhysicalAttack_damage_ge_one (st : BattleState) (atk : Bool) (time : ℚ)
    (attackName : String) (multiplier : ℚ) (guaranteedCrit : Bool) :
    1 ≤ (performPhysicalAttack st atk time attackName multiplier guaranteedCrit).2.damage := by
  simp only [performPhysicalAttack]
  exact one_le_applyDamageReduction _ _

theorem performMagicAttack_damage_ge_one (cat : Catalog) (st : BattleState) (atk : Bool)
    (time : ℚ) (attackName : String) (multiplier : ℚ) :
    1 ≤ (performMagicAttack cat st atk time attackName multiplier).2.damage := by
  simp only [performMagicAttack]
  exact one_le_applyDamageReduction _ _

/-- C5: every physical or magic attack deals at least 1 final damage, and
the combined damage reduction (base stat plus matching reduction buffs) is
capped at 80% before being applied. -/
theorem damage_floor_and_cap :
    (∀ baseDamage damageReduction : ℚ, 1 ≤ applyDamageReduction baseDamage damageReduction) ∧
    (∀ baseDamage damageReduction : ℚ, 80 ≤ damageReduction →
      applyDamageReduction baseDamage damageReduction = applyDamageReduction baseDamage 80) ∧
    (∀ (st : BattleState) (atk : Bool) (time : ℚ) (attackName : String)
        (multiplier : ℚ) (guaranteedCrit : Bool),
      1 ≤ (performPhysicalAttack st atk time attackName multiplier guaranteedCrit).2.damage) ∧
    (∀ (cat : Catalog) (st : BattleState) (atk : Bool) (time : ℚ) (attackName : String)
        (multiplier : ℚ),
      1 ≤ (performMagicAttack cat st atk time attackName multiplier).2.damage) :=
  ⟨one_le_applyDamageReduction, applyDamageReduction_cap,
    performPhysicalAttack_damage_ge_one, performMagicAttack_damage_ge_one⟩

/-- C5 witness: a 95% stacked reduction behaves exactly like the 80% cap and
still deals at least 1 damage, and a concrete attack deals at least 1. -/
theorem damage_floor_and_cap_witness :
    (80 : ℚ) ≤ 95 ∧
    1 ≤ applyDamageReduction 50 95 ∧
    applyDamageReduction 50 95 = applyDamageReduction 50 80 ∧
    1 ≤ (performPhysicalAttack (wState 50 50) true 0 "Basic Attack" 1 false).2.damage ∧
    1 ≤ (performMagicAttack [] (wState 50 50) true 0 "Basic Magic Attack" 1).2.damage :=
  ⟨by norm_num, damage_floor_and_cap.1 50 95, damage_floor_and_cap.2.1 50 95 (by norm_num),
    damage_floor_and_cap.2.2.1 (wState 50 50) true 0 "Basic Attack" 1 false,
    damage_floor_and_cap.2.2.2 [] (wState 50 50) true 0 "Basic Magic Attack" 1⟩

theorem list_map_self_of_fixed {α : Type} (l : List α) (f : α → α)
    (h : ∀ x ∈ l, f x = x) : l.map f = l := by
  induction l with
  | nil => rfl
  | cons a rest ih =>
    simp only [List.map_cons, h a (by simp)]
    rw [ih (fun x hx => h x (by simp [hx]))]

theorem refreshBuff_eq_map (l : List Buff) (ty : String) (et : ℚ)
    (h : (l.map Buff.type).Nodup) :
    refreshBuff l ty et =
      l.map (fun x => if x.type = ty then { x with endTime := et } else x) := by
  induction l with
  | nil => rfl
  | cons b rest ih =>
    simp only [List.map_cons, List.nodup_cons] at h
    by_cases hb : b.type = ty
    · have hrest :
          rest.map (fun x => if x.type = ty then { x with endTime := et } else x) = rest := by
        refine list_map_self_of_fixed rest _ (fun x hx => ?_)
        have hne : x.type ≠ ty := by
          intro hxy
          have hmem : x.type ∈ rest.map Buff.type := List.mem_map_of_mem Buff.type hx
          rw [hxy, ← hb] at hmem
          exact h.1 hmem
        simp [hne]
      simp [refreshBuff, hb, hrest]
    · simp [refreshBuff, hb, ih h.2]

theorem refreshPeriodic_eq_map (l : List PeriodicEffect) (ty : String) (et now : ℚ)
    (h : (l.map PeriodicEffect.type).Nodup) :
    refreshPeriodic l ty et now =
      l.map (fun x => if x.type = ty then { x with endTime := et, lastProcTime := now } else x) := by
  induction l with
  | nil => rfl
  | cons b rest ih =>
    simp only [List.map_cons, List.nodup_cons] at h
    by_cases hb : b.type = ty
    · have hrest :
          rest.map (fun x => if x.type = ty then
            { x with endTime := et, lastProcTime := now } else x) = rest := by
        refine list_map_self_of_fixed rest _ (fun x hx => ?_)
        have hne : x.type ≠ ty := by
          intro hxy
          have hmem : x.type ∈ rest.map PeriodicEffect.type :=
            List.mem_map_of_mem PeriodicEffect.type hx
          rw [hxy, ← hb] at hmem
          exact h.1 hmem
        simp [hne]
      simp [refreshPeriodic, hb, hrest]
    · simp [refreshPeriodic, hb, ih h.2]

/-- C7: re-applying a buff or periodic effect of an existing type refreshes
that entry's `endTime` instead of inserting a second entry (and a periodic
refresh also resets `lastProcTime` to now), so distinct-type lists stay
distinct-type and no combatant ever holds two active entries of one type. -/
theorem apply_refresh_unique (st : BattleState) (src i : Bool) (t : ℚ)
    (b : Buff) (e : PeriodicEffect) :
    ((((st.getChar i).buffs.map Buff.type).Nodup →
        ((((applyBuff st i t b).getChar i).buffs.map Buff.type).Nodup ∧
          ((applyBuff st i t b).getChar i).buffs =
            (if b.type ∈ (st.getChar i).buffs.map Buff.type then
              (st.getChar i).buffs.map
                (fun x => if x.type = b.type then { x with endTime := t + b.duration } else x)
            else (st.getChar i).buffs ++ [b]))) ) ∧
    ((((st.getChar i).periodicEffects.map PeriodicEffect.type).Nodup →
        ((((applyPeriodicEffect st src i t e).getChar i).periodicEffects.map
            PeriodicEffect.type).Nodup ∧
          ((applyPeriodicEffect st src i t e).getChar i).periodicEffects =
            (if e.type ∈ (st.getChar i).periodicEffects.map PeriodicEffect.type then
              (st.getChar i).periodicEffects.map
                (fun x => if x.type = e.type then
                  { x with endTime := t + e.duration, lastProcTime := t } else x)
            else (st.getChar i).periodicEffects ++
              [{ e with sourceName := (st.getChar src).name }]))) ) := by
  constructor
  · intro hnd
    cases hfind : (st.getChar i).buffs.find? (fun x => x.type = b.type) with
    | none =>
      have hnm : b.type ∉ (st.getChar i).buffs.map Buff.type := by
        rw [List.find?_eq_none] at hfind
        intro hmem
        obtain ⟨x, hx, hxty⟩ := List.mem_map.mp hmem
        have hx2 := hfind x hx
        simp only [decide_eq_true_eq] at hx2
        exact hx2 hxty
      have hres : ((applyBuff st i t b).getChar i).buffs = (st.getChar i).buffs ++ [b] := by
        simp [applyBuff, hfind, getChar_pushLog, getChar_updChar_same]
      refine ⟨?_, ?_⟩
      · rw [hres, List.map_append, List.nodup_append]
        refine ⟨hnd, List.nodup_singleton _, ?_⟩
        intro a ha hab
        simp only [List.map_cons, List.map_nil, List.mem_singleton] at hab
        subst hab
        exact hnm ha
      · rw [hres, if_neg hnm]
    | some w =>
      have hmem : b.type ∈ (st.getChar i).buffs.map Buff.type := by
        have hw := List.find?_some hfind
        have hwm := List.mem_of_find?_eq_some hfind
        simp only [decide_eq_true_eq] at hw
        exact hw ▸ List.mem_map_of_mem Buff.type hwm
      have hres : ((applyBuff st i t b).getChar i).buffs =
          refreshBuff (st.getChar i).buffs b.type (t + b.duration) := by
        simp [applyBuff, hfind, getChar_pushLog, getChar_updChar_same]
      rw [hres, refreshBuff_eq_map _ _ _ hnd, if_pos hmem]
      refine ⟨?_, rfl⟩
      rw [List.map_map]
      have hcomp : (Buff.type ∘ fun x =>
          if x.type = b.type then { x with endTime := t + b.duration } else x) = Buff.type := by
        funext x
        by_cases hx : x.type = b.type <;> simp [hx]
      rw [hcomp]
      exact hnd
  · intro hnd
    cases hfind : (st.getChar i).periodicEffects.find? (fun x => x.type = e.type) with
    | none =>
      have hnm : e.type ∉ (st.getChar i).periodicEffects.map PeriodicEffect.type := by
        rw [List.find?_eq_none] at hfind
        intro hmem
        obtain ⟨x, hx, hxty⟩ := List.mem_map.mp hmem
        have hx2 := hfind x hx
        simp only [decide_eq_true_eq] at hx2
        exact hx2 hxty
      have hres : ((applyPeriodicEffect st src i t e).getChar i).periodicEffects =
          (st.getChar i).periodicEffects ++ [{ e with sourceName := (st.getChar src).name }] := by
        simp [applyPeriodicEffect, hfind, getChar_pushLog, getChar_updChar_same]
      refine ⟨?_, ?_⟩
      · rw [hres, List.map_append, List.nodup_append]
        refine ⟨hnd, List.nodup_singleton _, ?_⟩
        intro a ha hab
        simp only [List.map_cons, List.map_nil, List.mem_singleton] at hab
        subst hab
        exact hnm ha
      · rw [hres, if_neg hnm]
    | some w =>
      have hmem : e.type ∈ (st.getChar i).periodicEffects.map PeriodicEffect.type := by
        have hw := List.find?_some hfind
        have hwm := List.mem_of_find?_eq_some hfind
        simp only [decide_eq_true_eq] at hw
        exact hw ▸ List.mem_map_of_mem PeriodicEffect.type hwm
      have hres : ((applyPeriodicEffect st src i t e).getChar i).periodicEffects =
          refreshPeriodic (st.getChar i).periodicEffects e.type (t + e.duration) t := by
        simp [applyPeriodicEffect, hfind, getChar_pushLog, getChar_updChar_same]
      rw [hres, refreshPeriodic_eq_map _ _ _ _ hnd, if_pos hmem]
      refine ⟨?_, rfl⟩
      rw [List.map_map]
      have hcomp : (PeriodicEffect.type ∘ fun x => if x.type = e.type then
          { x with endTime := t + e.duration, lastProcTime := t } else x) = PeriodicEffect.type := by
        funext x
        by_cases hx : x.type = e.type <;> simp [hx]
      rw [hcomp]
      exact hnd

/-- C7 witness: refreshing the existing damage-increase buff and the
existing poison effect on the witness state keeps one entry per type and
rewrites only the timers; a new buff type is appended. -/
theorem apply_refresh_unique_witness :
    (((wBuffSt.getChar true).buffs.map Buff.type).Nodup ∧
      (((applyBuff wBuffSt true 5 wBuff2).getChar true).buffs.map Buff.type).Nodup ∧
      ((applyBuff wBuffSt true 5 wBuff2).getChar true).buffs =
        (if wBuff2.type ∈ (wBuffSt.getChar true).buffs.map Buff.type then
          (wBuffSt.getChar true).buffs.map
            (fun x => if x.type = wBuff2.type then { x with endTime := 5 + wBuff2.duration } else x)
        else (wBuffSt.getChar true).buffs ++ [wBuff2])) ∧
    ((((applyPeriodicEffect wBuffSt false true 5 wEff2).getChar true).periodicEffects.map
        PeriodicEffect.type).Nodup ∧
      ((applyPeriodicEffect wBuffSt false true 5 wEff2).getChar true).periodicEffects =
        (if wEff2.type ∈ (wBuffSt.getChar true).periodicEffects.map PeriodicEffect.type then
          (wBuffSt.getChar true).periodicEffects.map
            (fun x => if x.type = wEff2.type then
              { x with endTime := 5 + wEff2.duration, lastProcTime := 5 } else x)
        else (wBuffSt.getChar true).periodicEffects ++
          [{ wEff2 with sourceName := (wBuffSt.getChar false).name }])) ∧
    ((applyBuff wBuffSt true 5 wBuffN).getChar true).buffs =
      (if wBuffN.type ∈ (wBuffSt.getChar true).buffs.map Buff.type then
        (wBuffSt.getChar true).buffs.map
          (fun x => if x.type = wBuffN.type then { x with endTime := 5 + wBuffN.duration } else x)
      else (wBuffSt.getChar true).buffs ++ [wBuffN]) :=
  ⟨⟨by decide, ((apply_refresh_unique wBuffSt false true 5 wBuff2 wEff2).1 (by decide)).1,
    ((apply_refresh_unique wBuffSt false true 5 wBuff2 wEff2).1 (by decide)).2⟩,
   ⟨((apply_refresh_unique wBuffSt false true 5 wBuff2 wEff2).2 (by decide)).1,
    ((apply_refresh_unique wBuffSt false true 5 wBuff2 wEff2).2 (by decide)).2⟩,
   ((apply_refresh_unique wBuffSt false true 5 wBuffN wEff2).1 (by decide)).2⟩

theorem applyDamageBuffs_cons (b : Buff) (rest : List Buff) (d : ℚ) :
    applyDamageBuffs (b :: rest) d =
      applyDamageBuffs rest
        (if b.type = "damageIncrease" then jsRound (d * (1 + b.amount / 100)) else d) := rfl

theorem applyDamageBuffs_filter (l : List Buff) (d : ℚ) :
    applyDamageBuffs l d =
      applyDamageBuffs (l.filter (fun b => b.type = "damageIncrease")) d := by
  induction l generalizing d with
  | nil => rfl
  | cons b rest ih =>
    by_cases hb : b.type = "damageIncrease"
    · rw [applyDamageBuffs_cons, ih, List.filter_cons_of_pos (by simp [hb]),
        applyDamageBuffs_cons]
    · rw [applyDamageBuffs_cons, if_neg hb, ih, List.filter_cons_of_neg (by simp [hb])]

theorem applyDamageBuffs_perm (l1 l2 : List Buff) (d : ℚ) (hperm : l1.Perm l2)
    (hcount : (l1.filter (fun b => b.type = "damageIncrease")).length ≤ 1) :
    applyDamageBuffs l1 d = applyDamageBuffs l2 d := by
  rw [applyDamageBuffs_filter l1, applyDamageBuffs_filter l2]
  have hp := hperm.filter (fun b => decide (b.type = "damageIncrease"))
  have heq : l1.filter (fun b => decide (b.type = "damageIncrease")) =
      l2.filter (fun b => decide (b.type = "damageIncrease")) := by
    cases hf : l1.filter (fun b => decide (b.type = "damageIncrease")) with
    | nil =>
      rw [hf] at hp
      rw [(List.nil_perm.mp hp)]
    | cons a rest =>
      cases rest with
      | nil =>
        rw [hf] at hp
        exact List.singleton_perm.mp hp
      | cons a2 rest2 =>
        rw [hf] at hcount
        simp at hcount
  rw [heq]

/-- C3 counterexample: two `damageIncrease` buffs on the attacker make
`performPhysicalAttack`'s damage depend on the buff iteration order (20%
then 30% yields 3, 30% then 20% yields 4 from the same deterministic roll),
because the code re-rounds after every buff; the claim as stated is false. -/
theorem damage_buff_order_counterexample :
    ([cxBuffA, cxBuffB]).Perm [cxBuffB, cxBuffA] ∧
    (performPhysicalAttack (cxState [cxBuffA, cxBuffB]) true 0 "Strike" 1 false).2.damage = 3 ∧
    (performPhysicalAttack (cxState [cxBuffB, cxBuffA]) true 0 "Strike" 1 false).2.damage = 4 := by
  refine ⟨List.Perm.swap _ _ _, ?_, ?_⟩ <;>
    norm_num [performPhysicalAttack, cxState, cxStats, wChar, wStats, cxBuffA, cxBuffB,
      applyDamageBuffs, randomInt, jsFloor, jsRound, calculateCritical, applyDamageReduction,
      BattleState.nextRand, BattleState.getChar, BattleState.updChar, BattleState.setChar,
      BattleState.pushLog, round_eq]

/-- C3 amended: the `(1 + amount/100)` factors commute mathematically, but
the code rounds the damage again after every buff, so the damage of
`performPhysicalAttack` and `performMagicAttack` is invariant under
permutation of the attacker's buffs only when at most one `damageIncrease`
buff is active — which is the invariant `applyBuff` maintains; with two
such buffs the counterexample breaks order-independence. -/
theorem attack_damage_buff_order (cat : Catalog) (st : BattleState) (atk : Bool) (time : ℚ)
    (attackName : String) (multiplier : ℚ) (guaranteedCrit : Bool) (l2 : List Buff)
    (hperm : ((st.getChar atk).buffs).Perm l2)
    (hcount : (((st.getChar atk).buffs).filter
      (fun b => b.type = "damageIncrease")).length ≤ 1) :
    (performPhysicalAttack (st.updChar atk (fun c => { c with buffs := l2 }))
        atk time attackName multiplier guaranteedCrit).2.damage =
      (performPhysicalAttack st atk time attackName multiplier guaranteedCrit).2.damage ∧
    (performMagicAttack cat (st.updChar atk (fun c => { c with buffs := l2 }))
        atk time attackName multiplier).2.damage =
      (performMagicAttack cat st atk time attackName multiplier).2.damage := by
  cases atk with
  | true =>
    simp [BattleState.getChar] at hperm hcount
    constructor
    · by_cases hgc : guaranteedCrit <;>
        simp [performPhysicalAttack, BattleState.nextRand, BattleState.updChar,
          BattleState.setChar, BattleState.getChar, BattleState.pushLog, hgc] <;>
        rw [applyDamageBuffs_perm _ _ _ hperm hcount]
    · simp [performMagicAttack, BattleState.nextRand, BattleState.updChar,
        BattleState.setChar, BattleState.getChar, BattleState.pushLog]
      rw [applyDamageBuffs_perm _ _ _ hperm hcount]
  | false =>
    simp [BattleState.getChar] at hperm hcount
    constructor
    · by_cases hgc : guaranteedCrit <;>
        simp [performPhysicalAttack, BattleState.nextRand, BattleState.updChar,
          BattleState.setChar, BattleState.getChar, BattleState.pushLog, hgc] <;>
        rw [applyDamageBuffs_perm _ _ _ hperm hcount]
    · simp [performMagicAttack, BattleState.nextRand, BattleState.updChar,
        BattleState.setChar, BattleState.getChar, BattleState.pushLog]
      rw [applyDamageBuffs_perm _ _ _ hperm hcount]

/-- C3 witness: permuting one damage-increase buff past an unrelated buff
leaves both attack damages unchanged on a concrete state. -/
theorem attack_damage_buff_order_witness :
    ((wPermSt.getChar true).buffs).Perm [wBuffN, wBuff1] ∧
    (((wPermSt.getChar true).buffs.filter
      (fun b => b.type = "damageIncrease")).length ≤ 1) ∧
    (performPhysicalAttack (wPermSt.updChar true (fun c => { c with buffs := [wBuffN, wBuff1] }))
        true 0 "Strike" 1 false).2.damage =
      (performPhysicalAttack wPermSt true 0 "Strike" 1 false).2.damage ∧
    (performMagicAttack [] (wPermSt.updChar true (fun c => { c with buffs := [wBuffN, wBuff1] }))
        true 0 "Blast" 1).2.damage =
      (performMagicAttack [] wPermSt true 0 "Blast" 1).2.damage :=
  ⟨by decide, by decide,
    (attack_damage_buff_order [] wPermSt true 0 "Strike" 1 false [wBuffN, wBuff1]
      (by decide) (by decide)).1,
    (attack_damage_buff_order [] wPermSt true 0 "Blast" 1 false [wBuffN, wBuff1]
      (by decide) (by decide)).2⟩

/-- C6: a periodic effect ticks at time `t` iff
`t ≥ lastProcTime + interval` and `t < endTime` (the surviving entry's
`lastProcTime` becomes `t` exactly in that case), it is removed with an
expiry log entry whenever `t ≥ endTime` even if the tick interval had
elapsed, and the poison scenario (damage 10, duration 6, interval 2,
applied at t = 0, processed at t = 1..6) ticks at t = 2 and t = 4 only —
never at the expiry boundary t = 6 — leaving two damage log lines before
the expiry line. -/
theorem periodic_tick_iff_and_expiry (st : BattleState) (who : Bool) (t : ℚ)
    (e : PeriodicEffect) :
    (t ≥ e.endTime →
      procOneEffect st who t e =
        (st.pushLog (createLogEntry t
          (e.name ++ (" effect on " ++ (st.getChar who).name ++ " has expired"))), none)) ∧
    (t ≥ e.lastProcTime + e.interval → t < e.endTime →
      (procOneEffect st who t e).2 = some { e with lastProcTime := t }) ∧
    (t < e.lastProcTime + e.interval → t < e.endTime →
      procOneEffect st who t e = (st, some e)) ∧
    ((runEffectsAt wEffSt [1, 2, 3, 4, 5, 6]).character1.currentHealth = 60 ∧
      (runEffectsAt wEffSt [1, 2, 3, 4, 5, 6]).character1.periodicEffects = [] ∧
      (runEffectsAt wEffSt [1, 2, 3, 4, 5, 6]).log.map LogEntry.time = [2, 4, 6] ∧
      (runEffectsAt wEffSt [1, 2, 3, 4, 5, 6]).log.map LogEntry.message =
        [("A" ++ (" takes " ++ toString (10 : ℚ) ++ " damage from " ++ "Poison")),
          ("A" ++ (" takes " ++ toString (10 : ℚ) ++ " damage from " ++ "Poison")),
          ("Poison" ++ (" effect on " ++ "A" ++ " has expired"))]) := by
  refine ⟨fun hge => ?_, fun htick hlt => ?_, fun hno hlt => ?_, ?_⟩
  · have hc : ¬(t ≥ e.lastProcTime + e.interval ∧ t < e.endTime) := by
      rintro ⟨-, h2⟩
      exact absurd hge (not_le.mpr h2)
    simp [procOneEffect, hc, hge]
  · have hc : t ≥ e.lastProcTime + e.interval ∧ t < e.endTime := ⟨htick, hlt⟩
    simp [procOneEffect, hc, not_le.mpr hlt]
  · have hc : ¬(t ≥ e.lastProcTime + e.interval ∧ t < e.endTime) := by
      rintro ⟨h1, -⟩
      exact absurd h1 (not_le.mpr hno)
    simp [procOneEffect, hc, not_le.mpr hlt]
  · refine ⟨?_, ?_, ?_, ?_⟩ <;>
      norm_num [runEffectsAt, wEffSt, wEff1, wChar, wStats, processCharacterEffects,
        procEffectList, procOneEffect, expireBuffs, createLogEntry, jsRound,
        BattleState.updChar, BattleState.setChar, BattleState.getChar, BattleState.pushLog,
        round_eq]

/-- C6 witness: the poison effect of the scenario is removed without a tick
at its expiry boundary t = 6, ticks at t = 2, and does nothing at t = 1. -/
theorem periodic_tick_iff_and_expiry_witness :
    ((6 : ℚ) ≥ wEff1.endTime ∧
      procOneEffect wEffSt true 6 wEff1 =
        (wEffSt.pushLog (createLogEntry 6
          (wEff1.name ++ (" effect on " ++ (wEffSt.getChar true).name ++ " has expired"))),
          none)) ∧
    ((2 : ℚ) ≥ wEff1.lastProcTime + wEff1.interval ∧ (2 : ℚ) < wEff1.endTime ∧
      (procOneEffect wEffSt true 2 wEff1).2 = some { wEff1 with lastProcTime := 2 }) ∧
    ((1 : ℚ) < wEff1.lastProcTime + wEff1.interval ∧
      procOneEffect wEffSt true 1 wEff1 = (wEffSt, some wEff1)) :=
  ⟨⟨by norm_num [wEff1],
    (periodic_tick_iff_and_expiry wEffSt true 6 wEff1).1 (by norm_num [wEff1])⟩,
   ⟨by norm_num [wEff1], by norm_num [wEff1],
    (periodic_tick_iff_and_expiry wEffSt true 2 wEff1).2.1
      (by norm_num [wEff1]) (by norm_num [wEff1])⟩,
   ⟨by norm_num [wEff1],
    (periodic_tick_iff_and_expiry wEffSt true 1 wEff1).2.2.1
      (by norm_num [wEff1]) (by norm_num [wEff1])⟩⟩

theorem applyPeriodicEffect_frame (st : BattleState) (src tgt : Bool) (t : ℚ)
    (eff : PeriodicEffect) :
    ((applyPeriodicEffect st src tgt t eff).character1.currentMana = st.character1.currentMana ∧
      (applyPeriodicEffect st src tgt t eff).character2.currentMana = st.character2.currentMana) ∧
    ((applyPeriodicEffect st src tgt t eff).character1.stats = st.character1.stats ∧
      (applyPeriodicEffect st src tgt t eff).character2.stats = st.character2.stats) := by
  cases tgt with
  | false =>
    cases hfind : st.character2.periodicEffects.find? (fun x => x.type = eff.type) <;>
      simp [applyPeriodicEffect, hfind, BattleState.updChar, BattleState.setChar,
        BattleState.getChar, BattleState.pushLog]
  | true =>
    cases hfind : st.character1.periodicEffects.find? (fun x => x.type = eff.type) <;>
      simp [applyPeriodicEffect, hfind, BattleState.updChar, BattleState.setChar,
        BattleState.getChar, BattleState.pushLog]

/-- C4 counterexample: a mana-drain tick against a target with zero mana
drains nothing (`min(0, 10) = 0`) yet still credits the source with the
full 10 mana (5 → 15), so "the source gains that same amount" is false. -/
theorem manaDrain_counterexample :
    min (wDrainSt.getChar false).currentMana wDrainEff.amount = 0 ∧
    (wDrainSt.getChar true).currentMana = 5 ∧
    ((procOneEffect wDrainSt false 2 wDrainEff).1.getChar false).currentMana = 0 ∧
    ((procOneEffect wDrainSt false 2 wDrainEff).1.getChar true).currentMana = 15 := by
  refine ⟨?_, ?_, ?_, ?_⟩ <;>
    norm_num [procOneEffect, wDrainSt, wDrainEff, wChar, wStats,
      (by decide : ¬("manaDrain" : String) = "poison"),
      (by decide : ¬("manaDrain" : String) = "burning"),
      BattleState.updChar, BattleState.setChar, BattleState.getChar, BattleState.pushLog]

/-- C4 amended: every manaDrain proc (immediate first proc and periodic
tick) removes exactly `min(target.currentMana, amount)` from the target,
but credits the source with the full effect `amount` capped at the source's
max mana — the credit may exceed the amount actually drained — and the
source's `currentMana` never exceeds its maximum. -/
theorem manaDrain_transfer (st : BattleState) (t : ℚ) (e : PeriodicEffect)
    (a : Ability) (pe : PeriodicEffectDef) (msg : String) :
    (e.type = "manaDrain" → t ≥ e.lastProcTime + e.interval → t < e.endTime →
      e.sourceName = st.character1.name →
      ((procOneEffect st false t e).1.character2.currentMana =
          st.character2.currentMana - min st.character2.currentMana e.amount ∧
        (procOneEffect st false t e).1.character1.currentMana =
          min st.character1.stats.mana (st.character1.currentMana + e.amount) ∧
        (procOneEffect st false t e).1.character1.currentMana ≤ st.character1.stats.mana)) ∧
    (pe.type = "manaDrain" →
      ((processPeriodicAbility st true t a pe msg).character2.currentMana =
          st.character2.currentMana - min st.character2.currentMana pe.amount ∧
        (processPeriodicAbility st true t a pe msg).character1.currentMana =
          min st.character1.stats.mana (st.character1.currentMana + pe.amount) ∧
        (processPeriodicAbility st true t a pe msg).character1.currentMana ≤
          st.character1.stats.mana)) := by
  constructor
  · intro hty htick hlt hsrc
    have hc : t ≥ e.lastProcTime + e.interval ∧ t < e.endTime := ⟨htick, hlt⟩
    by_cases hd : min st.character2.currentMana e.amount > 0 <;>
      simp [procOneEffect, hc, hty, hsrc, hd, not_le.mpr hlt,
        (by decide : ¬("manaDrain" : String) = "poison"),
        (by decide : ¬("manaDrain" : String) = "burning"),
        BattleState.updChar, BattleState.setChar, BattleState.getChar, BattleState.pushLog,
        min_le_left]
  · intro hty
    cases hfind : st.character2.periodicEffects.find? (fun x => x.type = "manaDrain") <;>
      by_cases hd : 0 < st.character2.currentMana ∧ 0 < pe.amount <;>
        simp [processPeriodicAbility, applyPeriodicEffect, hty, hfind, hd,
          BattleState.updChar, BattleState.setChar, BattleState.getChar, BattleState.pushLog,
          min_le_left]

/-- C4 witness: the concrete zero-mana drain tick and immediate proc on
`wDrainSt` (target loses `min(0,10) = 0`, source capped at its max). -/
theorem manaDrain_transfer_witness :
    (wDrainEff.type = "manaDrain" ∧
      (2 : ℚ) ≥ wDrainEff.lastProcTime + wDrainEff.interval ∧
      (2 : ℚ) < wDrainEff.endTime ∧ wDrainEff.sourceName = wDrainSt.character1.name ∧
      ((procOneEffect wDrainSt false 2 wDrainEff).1.character2.currentMana =
          wDrainSt.character2.currentMana - min wDrainSt.character2.currentMana wDrainEff.amount ∧
        (procOneEffect wDrainSt false 2 wDrainEff).1.character1.currentMana =
          min wDrainSt.character1.stats.mana
            (wDrainSt.character1.currentMana + wDrainEff.amount) ∧
        (procOneEffect wDrainSt false 2 wDrainEff).1.character1.currentMana ≤
          wDrainSt.character1.stats.mana)) ∧
    (wPeDef.type = "manaDrain" ∧
      ((processPeriodicAbility wDrainSt true 2 wAbility wPeDef "m").character2.currentMana =
          wDrainSt.character2.currentMana - min wDrainSt.character2.currentMana wPeDef.amount ∧
        (processPeriodicAbility wDrainSt true 2 wAbility wPeDef "m").character1.currentMana =
          min wDrainSt.character1.stats.mana
            (wDrainSt.character1.currentMana + wPeDef.amount) ∧
        (processPeriodicAbility wDrainSt true 2 wAbility wPeDef "m").character1.currentMana ≤
          wDrainSt.character1.stats.mana)) :=
  ⟨⟨by decide, by norm_num [wDrainEff], by norm_num [wDrainEff], by decide,
    (manaDrain_transfer wDrainSt 2 wDrainEff wAbility wPeDef "m").1
      (by decide) (by norm_num [wDrainEff]) (by norm_num [wDrainEff]) (by decide)⟩,
   ⟨by decide,
    (manaDrain_transfer wDrainSt 2 wDrainEff wAbility wPeDef "m").2 (by decide)⟩⟩

theorem foldl_speed_eq_prod (l : List Buff) (x : ℚ) :
    l.foldl (fun m b => if b.type = "attackSpeedReduction" then m * (1 + b.amount / 100) else m) x =
      x * ((l.filter (fun b => b.type = "attackSpeedReduction")).map
        (fun b => 1 + b.amount / 100)).prod := by
  induction l generalizing x with
  | nil => simp
  | cons b rest ih =>
    by_cases hb : b.type = "attackSpeedReduction"
    · rw [List.foldl_cons, if_pos hb, ih, List.filter_cons_of_pos (by simp [hb]),
        List.map_cons, List.prod_cons]
      ring
    · rw [List.foldl_cons, if_neg hb, ih, List.filter_cons_of_neg (by simp [hb])]

theorem getEffectiveAttackSpeed_eq_spec (c : Character) :
    getEffectiveAttackSpeed c = specEffectiveAttackSpeed c := by
  unfold getEffectiveAttackSpeed specEffectiveAttackSpeed
  rw [foldl_speed_eq_prod]
  ring

/-- C8: in each loop iteration the combatant with the smaller next-attack
time acts (ties favour combatant 1): `battleTime` advances to that time, the
action is resolved via `processAttack` for that combatant, the actor's
next-attack time grows by its post-action effective attack speed — equal to
`baseAttackSpeed * Π(1 + amount/100)` over active `attackSpeedReduction`
buffs — and the other clock is untouched, after which both sides' periodic
effects are processed at the new time. -/
theorem battleStep_schedule (cat : Catalog) (ls : LoopState) :
    (ls.char1NextAttack ≤ ls.char2NextAttack →
      battleStep cat ls =
        { st :=
            { processEffects (processAttack cat ls.st true ls.char1NextAttack)
                ls.char1NextAttack with
              rounds := (processEffects (processAttack cat ls.st true ls.char1NextAttack)
                ls.char1NextAttack).rounds + 1 },
          char1NextAttack := ls.char1NextAttack +
            specEffectiveAttackSpeed (processAttack cat ls.st true ls.char1NextAttack).character1,
          char2NextAttack := ls.char2NextAttack,
          battleTime := ls.char1NextAttack }) ∧
    (¬ ls.char1NextAttack ≤ ls.char2NextAttack →
      battleStep cat ls =
        { st :=
            { processEffects (processAttack cat ls.st false ls.char2NextAttack)
                ls.char2NextAttack with
              rounds := (processEffects (processAttack cat ls.st false ls.char2NextAttack)
                ls.char2NextAttack).rounds + 1 },
          char1NextAttack := ls.char1NextAttack,
          char2NextAttack := ls.char2NextAttack +
            specEffectiveAttackSpeed (processAttack cat ls.st false ls.char2NextAttack).character2,
          battleTime := ls.char2NextAttack }) := by
  constructor
  · intro h
    simp [battleStep, h, getEffectiveAttackSpeed_eq_spec]
  · intro h
    simp [battleStep, h, getEffectiveAttackSpeed_eq_spec]

/-- C8 witness: the two concrete loop states exercise both branches (tie or
combatant 1 earlier picks combatant 1; combatant 2 strictly earlier picks
combatant 2). -/
theorem battleStep_schedule_witness :
    (wLoop1.char1NextAttack ≤ wLoop1.char2NextAttack ∧
      battleStep [] wLoop1 =
        { st :=
            { processEffects (processAttack [] wLoop1.st true wLoop1.char1NextAttack)
                wLoop1.char1NextAttack with
              rounds := (processEffects (processAttack [] wLoop1.st true wLoop1.char1NextAttack)
                wLoop1.char1NextAttack).rounds + 1 },
          char1NextAttack := wLoop1.char1NextAttack +
            specEffectiveAttackSpeed
              (processAttack [] wLoop1.st true wLoop1.char1NextAttack).character1,
          char2NextAttack := wLoop1.char2NextAttack,
          battleTime := wLoop1.char1NextAttack }) ∧
    (¬ wLoop2.char1NextAttack ≤ wLoop2.char2NextAttack ∧
      battleStep [] wLoop2 =
        { st :=
            { processEffects (processAttack [] wLoop2.st false wLoop2.char2NextAttack)
                wLoop2.char2NextAttack with
              rounds := (processEffects (processAttack [] wLoop2.st false wLoop2.char2NextAttack)
                wLoop2.char2NextAttack).rounds + 1 },
          char1NextAttack := wLoop2.char1NextAttack,
          char2NextAttack := wLoop2.char2NextAttack +
            specEffectiveAttackSpeed
              (processAttack [] wLoop2.st false wLoop2.char2NextAttack).character2,
          battleTime := wLoop2.char2NextAttack }) :=
  ⟨⟨by norm_num [wLoop1], (battleStep_schedule [] wLoop1).1 (by norm_num [wLoop1])⟩,
   ⟨by norm_num [wLoop2], (battleStep_schedule [] wLoop2).2 (by norm_num [wLoop2])⟩⟩

theorem find?_first {α : Type} (p : α → Bool) (l : List α) (a : α) (h : l.find? p = some a) :
    p a = true ∧ ∃ l1 l2, l = l1 ++ a :: l2 ∧ ∀ x ∈ l1, p x = false := by
  induction l with
  | nil => simp [List.find?] at h
  | cons b rest ih =>
    rw [List.find?] at h
    cases hb : p b with
    | true =>
      rw [hb] at h
      simp only [Option.some.injEq] at h
      subst h
      exact ⟨hb, [], rest, rfl, by simp⟩
    | false =>
      rw [hb] at h
      simp only at h
      obtain ⟨hp, l1, l2, heq, hall⟩ := ih h
      refine ⟨hp, b :: l1, l2, by rw [heq]; rfl, ?_⟩
      intro x hx
      rcases List.mem_cons.mp hx with hxb | hxl
      · rw [hxb]; exact hb
      · exact hall x hxl

/-- C9: a successful `findMatch` pairs the caller with the first waiting
entry whose `characterId` and `playerId` both differ (entries before it all
fail that test), removes both parties' entries from the queue, and the
matched opponent always belongs to a different player; consequently two
same-owner enqueues (the spec's `enqueue(A,X); enqueue(B,X)` scenario) do
not pair. -/
theorem findMatch_pairing (queue : List QueueEntry) (characterId playerId : String)
    (r : QueueEntry × List QueueEntry) :
    (findMatch queue characterId playerId = some r →
      ((¬ r.1.characterId = characterId ∧ ¬ r.1.playerId = playerId) ∧
        (∃ l1 l2, queue = l1 ++ r.1 :: l2 ∧
          ∀ x ∈ l1, ¬(¬ x.characterId = characterId ∧ ¬ x.playerId = playerId)) ∧
        r.2 = queue.filter
          (fun e => ¬ e.characterId = characterId ∧ ¬ e.characterId = r.1.characterId) ∧
        (∀ x ∈ r.2, ¬ x.characterId = characterId ∧ ¬ x.characterId = r.1.characterId))) ∧
    ((addToQueue ((addToQueue { } "A" "X" 0).1) "B" "X" 1).2.matchedOpponent = none ∧
      (addToQueue ((addToQueue { } "A" "X" 0).1) "B" "X" 1).1.queue =
        [{ characterId := "A", playerId := "X", timestamp := 0 },
         { characterId := "B", playerId := "X", timestamp := 1 }]) := by
  constructor
  · intro h
    unfold findMatch at h
    cases hfind : queue.find? (fun e => ¬ e.characterId = characterId ∧ ¬ e.playerId = playerId) with
    | none => rw [hfind] at h; simp at h
    | some opp =>
      rw [hfind] at h
      simp only [Option.some.injEq] at h
      subst h
      obtain ⟨hp, l1, l2, heq, hall⟩ := find?_first _ _ _ hfind
      simp only [Bool.decide_and, Bool.and_eq_true, decide_eq_true_eq] at hp
      refine ⟨⟨hp.1, hp.2⟩, ⟨l1, l2, heq, ?_⟩, rfl, ?_⟩
      · intro x hx
        have := hall x hx
        simp only [Bool.decide_and, Bool.and_eq_false_iff, decide_eq_false_iff_not,
          not_not] at this
        intro hc
        rcases this with h1 | h2
        · exact hc.1 (by simpa using h1)
        · exact hc.2 (by simpa using h2)
      · intro x hx
        have := List.of_mem_filter hx
        simpa using this
  · constructor <;> decide

/-- C9 witness: on a queue holding two characters of player X and one of
player Y, a new character of player X pairs with player Y's entry — the
first compatible one — and both entries leave the queue. -/
theorem findMatch_pairing_witness :
    findMatch wQueue "D" "X" =
      some ({ characterId := "C", playerId := "Y", timestamp := 2 },
        [{ characterId := "A", playerId := "X", timestamp := 0 },
         { characterId := "B", playerId := "X", timestamp := 1 }]) ∧
    (¬ ({ characterId := "C", playerId := "Y", timestamp := 2 } : QueueEntry).characterId = "D" ∧
      ¬ ({ characterId := "C", playerId := "Y", timestamp := 2 } : QueueEntry).playerId = "X") ∧
    (∃ l1 l2, wQueue = l1 ++
        ({ characterId := "C", playerId := "Y", timestamp := 2 } : QueueEntry) :: l2 ∧
      ∀ x ∈ l1, ¬(¬ x.characterId = "D" ∧ ¬ x.playerId = "X")) ∧
    [({ characterId := "A", playerId := "X", timestamp := 0 } : QueueEntry),
      { characterId := "B", playerId := "X", timestamp := 1 }] = wQueue.filter
        (fun e => ¬ e.characterId = "D" ∧ ¬ e.characterId = "C") ∧
    (∀ x ∈ [({ characterId := "A", playerId := "X", timestamp := 0 } : QueueEntry),
        { characterId := "B", playerId := "X", timestamp := 1 }],
      ¬ x.characterId = "D" ∧ ¬ x.characterId = "C") :=
  ⟨by decide,
    ((findMatch_pairing wQueue "D" "X"
      ({ characterId := "C", playerId := "Y", timestamp := 2 },
        [{ characterId := "A", playerId := "X", timestamp := 0 },
         { characterId := "B", playerId := "X", timestamp := 1 }])).1 (by decide)).1,
    ((findMatch_pairing wQueue "D" "X"
      ({ characterId := "C", playerId := "Y", timestamp := 2 },
        [{ characterId := "A", playerId := "X", timestamp := 0 },
         { characterId := "B", playerId := "X", timestamp := 1 }])).1 (by decide)).2.1,
    ((findMatch_pairing wQueue "D" "X"
      ({ characterId := "C", playerId := "Y", timestamp := 2 },
        [{ characterId := "A", playerId := "X", timestamp := 0 },
         { characterId := "B", playerId := "X", timestamp := 1 }])).1 (by decide)).2.2.1,
    ((findMatch_pairing wQueue "D" "X"
      ({ characterId := "C", playerId := "Y", timestamp := 2 },
        [{ characterId := "A", playerId := "X", timestamp := 0 },
         { characterId := "B", playerId := "X", timestamp := 1 }])).1 (by decide)).2.2.2⟩

theorem ite_character1 (c : Prop) [Decidable c] (a b : BattleState) :
    (if c then a else b).character1 = if c then a.character1 else b.character1 := by
  split <;> rfl

theorem ite_character2 (c : Prop) [Decidable c] (a b : BattleState) :
    (if c then a else b).character2 = if c then a.character2 else b.character2 := by
  split <;> rfl

theorem ite_fst {α β : Type} (c : Prop) [Decidable c] (a b : α × β) :
    (if c then a else b).1 = if c then a.1 else b.1 := by
  split <;> rfl

theorem ite_snd {α β : Type} (c : Prop) [Decidable c] (a b : α × β) :
    (if c then a else b).2 = if c then a.2 else b.2 := by
  split <;> rfl

theorem ite_stats (c : Prop) [Decidable c] (a b : Character) :
    (if c then a else b).stats = if c then a.stats else b.stats := by
  split <;> rfl

theorem ite_buffs (c : Prop) [Decidable c] (a b : Character) :
    (if c then a else b).buffs = if c then a.buffs else b.buffs := by
  split <;> rfl

theorem performPhysicalAttack_frame (st : BattleState) (atk : Bool) (t : ℚ) (nm : String)
    (mult : ℚ) (gc : Bool) :
    (performPhysicalAttack st atk t nm mult gc).1.character1.stats = st.character1.stats ∧
    (performPhysicalAttack st atk t nm mult gc).1.character1.buffs = st.character1.buffs ∧
    (performPhysicalAttack st atk t nm mult gc).1.character2.stats = st.character2.stats ∧
    (performPhysicalAttack st atk t nm mult gc).1.character2.buffs = st.character2.buffs := by
  cases atk <;>
    simp [performPhysicalAttack, BattleState.nextRand, BattleState.updChar, BattleState.setChar,
      BattleState.getChar, BattleState.pushLog, ite_character1, ite_character2, ite_fst, ite_snd]

theorem performMagicAttack_frame (cat : Catalog) (st : BattleState) (atk : Bool) (t : ℚ)
    (nm : String) (mult : ℚ) :
    (performMagicAttack cat st atk t nm mult).1.character1.stats = st.character1.stats ∧
    (performMagicAttack cat st atk t nm mult).1.character1.buffs = st.character1.buffs ∧
    (performMagicAttack cat st atk t nm mult).1.character2.stats = st.character2.stats ∧
    (performMagicAttack cat st atk t nm mult).1.character2.buffs = st.character2.buffs := by
  cases atk <;>
    simp [performMagicAttack, BattleState.nextRand, BattleState.updChar, BattleState.setChar,
      BattleState.getChar, BattleState.pushLog, ite_character1, ite_character2, ite_fst, ite_snd]

theorem performBasicAttack_frame (cat : Catalog) (st : BattleState) (atk : Bool) (t : ℚ) :
    (performBasicAttack cat st atk t).character1.stats = st.character1.stats ∧
    (performBasicAttack cat st atk t).character1.buffs = st.character1.buffs ∧
    (performBasicAttack cat st atk t).character2.stats = st.character2.stats ∧
    (performBasicAttack cat st atk t).character2.buffs = st.character2.buffs := by
  by_cases hm : (st.getChar atk).attackType = "magic" <;>
    simp [performBasicAttack, hm, performPhysicalAttack_frame, performMagicAttack_frame]

theorem applyHeal_frame (st : BattleState) (i : Bool) (t : ℚ) (he : HealEffect) :
    (applyHeal st i t he).1.character1.stats = st.character1.stats ∧
    (applyHeal st i t he).1.character1.buffs = st.character1.buffs ∧
    (applyHeal st i t he).1.character2.stats = st.character2.stats ∧
    (applyHeal st i t he).1.character2.buffs = st.character2.buffs := by
  cases i <;>
    simp [applyHeal, BattleState.updChar, BattleState.setChar, BattleState.getChar,
      BattleState.pushLog]

theorem applyPeriodicEffect_frame2 (st : BattleState) (src tgt : Bool) (t : ℚ)
    (eff : PeriodicEffect) :
    (applyPeriodicEffect st src tgt t eff).character1.stats = st.character1.stats ∧
    (applyPeriodicEffect st src tgt t eff).character1.buffs = st.character1.buffs ∧
    (applyPeriodicEffect st src tgt t eff).character2.stats = st.character2.stats ∧
    (applyPeriodicEffect st src tgt t eff).character2.buffs = st.character2.buffs := by
  cases tgt with
  | false =>
    cases hfind : st.character2.periodicEffects.find? (fun x => x.type = eff.type) <;>
      simp [applyPeriodicEffect, hfind, BattleState.updChar, BattleState.setChar,
        BattleState.getChar, BattleState.pushLog]
  | true =>
    cases hfind : st.character1.periodicEffects.find? (fun x => x.type = eff.type) <;>
      simp [applyPeriodicEffect, hfind, BattleState.updChar, BattleState.setChar,
        BattleState.getChar, BattleState.pushLog]

theorem procOneEffect_frame (st : BattleState) (who : Bool) (t : ℚ) (e : PeriodicEffect) :
    (procOneEffect st who t e).1.character1.stats = st.character1.stats ∧
    (procOneEffect st who t e).1.character1.buffs = st.character1.buffs ∧
    (procOneEffect st who t e).1.character2.stats = st.character2.stats ∧
    (procOneEffect st who t e).1.character2.buffs = st.character2.buffs := by
  by_cases hsn : e.sourceName = st.character1.name <;>
    cases who <;>
      simp [procOneEffect, hsn, BattleState.updChar, BattleState.setChar, BattleState.getChar,
        BattleState.pushLog, ite_character1, ite_character2, ite_fst, ite_snd,
        ite_stats, ite_buffs]

theorem procEffectList_frame (who : Bool) (t : ℚ) (st : BattleState)
    (l : List PeriodicEffect) :
    (procEffectList who t st l).1.character1.stats = st.character1.stats ∧
    (procEffectList who t st l).1.character1.buffs = st.character1.buffs ∧
    (procEffectList who t st l).1.character2.stats = st.character2.stats ∧
    (procEffectList who t st l).1.character2.buffs = st.character2.buffs := by
  induction l generalizing st with
  | nil => simp [procEffectList]
  | cons e rest ih =>
    have hone := procOneEffect_frame (procEffectList who t st rest).1 who t e
    have hih := ih st
    simp only [procEffectList]
    exact ⟨hone.1.trans hih.1, hone.2.1.trans hih.2.1,
      hone.2.2.1.trans hih.2.2.1, hone.2.2.2.trans hih.2.2.2⟩

theorem expireBuffs_chars (who : Bool) (t : ℚ) (st : BattleState) (l : List Buff) :
    (expireBuffs who t st l).1.character1 = st.character1 ∧
    (expireBuffs who t st l).1.character2 = st.character2 := by
  induction l generalizing st with
  | nil => simp [expireBuffs]
  | cons b rest ih =>
    by_cases hb : t ≥ b.endTime <;>
      simp [expireBuffs, hb, BattleState.pushLog, ih st]

theorem expireBuffs_sub (who : Bool) (t : ℚ) (st : BattleState) (l : List Buff) :
    ∀ b ∈ (expireBuffs who t st l).2, b ∈ l := by
  induction l generalizing st with
  | nil => simp [expireBuffs]
  | cons b rest ih =>
    by_cases hb : t ≥ b.endTime
    · intro x hx
      simp only [expireBuffs, hb, if_pos] at hx
      exact List.mem_cons_of_mem b (ih st x hx)
    · intro x hx
      simp only [expireBuffs, hb, if_neg, if_false] at hx
      rcases List.mem_cons.mp hx with h | h
      · exact h ▸ List.mem_cons_self x rest
      · exact List.mem_cons_of_mem b (ih st x h)

theorem SpeedInv_congr (s1 s2 : Stats) (st st' : BattleState)
    (h1 : st'.character1 = st.character1) (h2 : st'.character2 = st.character2)
    (hs : SpeedInv s1 s2 st) : SpeedInv s1 s2 st' := by
  unfold SpeedInv at hs ⊢
  rw [h1, h2]
  exact hs

theorem SpeedInv_of_frame (s1 s2 : Stats) (st st' : BattleState)
    (e1 : st'.character1.stats = st.character1.stats)
    (e2 : st'.character1.buffs = st.character1.buffs)
    (e3 : st'.character2.stats = st.character2.stats)
    (e4 : st'.character2.buffs = st.character2.buffs)
    (hs : SpeedInv s1 s2 st) : SpeedInv s1 s2 st' := by
  obtain ⟨i1, i2, i3, i4⟩ := hs
  refine ⟨e1.trans i1, e3.trans i2, ?_, ?_⟩
  · rw [e2]; exact i3
  · rw [e4]; exact i4

theorem pushLog_char1 (st : BattleState) (e : LogEntry) :
    (st.pushLog e).character1 = st.character1 := rfl

theorem pushLog_char2 (st : BattleState) (e : LogEntry) :
    (st.pushLog e).character2 = st.character2 := rfl

theorem refreshBuff_mem (l : List Buff) (ty : String) (et : ℚ) :
    ∀ b' ∈ refreshBuff l ty et, ∃ b ∈ l, b'.type = b.type ∧ b'.amount = b.amount := by
  induction l with
  | nil => simp [refreshBuff]
  | cons b rest ih =>
    by_cases hb : b.type = ty
    · intro b' hb'
      simp only [refreshBuff, hb, if_pos] at hb'
      rcases List.mem_cons.mp hb' with h | h
      · exact ⟨b, List.mem_cons_self b rest, by rw [h]; exact hb.symm, by rw [h]⟩
      · exact ⟨b', List.mem_cons_of_mem b h, rfl, rfl⟩
    · intro b' hb'
      simp only [refreshBuff, hb, if_neg, if_false] at hb'
      rcases List.mem_cons.mp hb' with h | h
      · exact ⟨b, List.mem_cons_self b rest, by rw [h], by rw [h]⟩
      · obtain ⟨b0, hb0, hty, ham⟩ := ih b' h
        exact ⟨b0, List.mem_cons_of_mem b hb0, hty, ham⟩

theorem applyBuff_inv (s1 s2 : Stats) (st : BattleState) (i : Bool) (t : ℚ) (buff : Buff)
    (hb : buff.type = "attackSpeedReduction" → 0 ≤ buff.amount)
    (hs : SpeedInv s1 s2 st) : SpeedInv s1 s2 (applyBuff st i t buff) := by
  obtain ⟨i1, i2, i3, i4⟩ := hs
  cases i with
  | true =>
    cases hfind : st.character1.buffs.find? (fun b => b.type = buff.type) with
    | none =>
      have hch1 : (applyBuff st true t buff).character1 =
          { st.character1 with buffs := st.character1.buffs ++ [buff] } := by
        simp [applyBuff, hfind, BattleState.updChar, BattleState.setChar, BattleState.getChar,
          BattleState.pushLog]
      have hch2 : (applyBuff st true t buff).character2 = st.character2 := by
        simp [applyBuff, hfind, BattleState.updChar, BattleState.setChar, BattleState.getChar,
          BattleState.pushLog]
      refine ⟨by rw [hch1]; exact i1, by rw [hch2]; exact i2, ?_, by rw [hch2]; exact i4⟩
      rw [hch1]
      intro x hx hty
      rcases List.mem_append.mp hx with h | h
      · exact i3 x h hty
      · rw [List.mem_singleton] at h
        subst h
        exact hb hty
    | some w =>
      have hch1 : (applyBuff st true t buff).character1 =
          { st.character1 with
            buffs := refreshBuff st.character1.buffs buff.type (t + buff.duration) } := by
        simp [applyBuff, hfind, BattleState.updChar, BattleState.setChar, BattleState.getChar,
          BattleState.pushLog]
      have hch2 : (applyBuff st true t buff).character2 = st.character2 := by
        simp [applyBuff, hfind, BattleState.updChar, BattleState.setChar, BattleState.getChar,
          BattleState.pushLog]
      refine ⟨by rw [hch1]; exact i1, by rw [hch2]; exact i2, ?_, by rw [hch2]; exact i4⟩
      rw [hch1]
      intro x hx hty
      obtain ⟨b0, hb0, htyeq, hameq⟩ := refreshBuff_mem _ _ _ x hx
      rw [hameq]
      exact i3 b0 hb0 (htyeq ▸ hty)
  | false =>
    cases hfind : st.character2.buffs.find? (fun b => b.type = buff.type) with
    | none =>
      have hch2 : (applyBuff st false t buff).character2 =
          { st.character2 with buffs := st.character2.buffs ++ [buff] } := by
        simp [applyBuff, hfind, BattleState.updChar, BattleState.setChar, BattleState.getChar,
          BattleState.pushLog]
      have hch1 : (applyBuff st false t buff).character1 = st.character1 := by
        simp [applyBuff, hfind, BattleState.updChar, BattleState.setChar, BattleState.getChar,
          BattleState.pushLog]
      refine ⟨by rw [hch1]; exact i1, by rw [hch2]; exact i2, by rw [hch1]; exact i3, ?_⟩
      rw [hch2]
      intro x hx hty
      rcases List.mem_append.mp hx with h | h
      · exact i4 x h hty
      · rw [List.mem_singleton] at h
        subst h
        exact hb hty
    | some w =>
      have hch2 : (applyBuff st false t buff).character2 =
          { st.character2 with
            buffs := refreshBuff st.character2.buffs buff.type (t + buff.duration) } := by
        simp [applyBuff, hfind, BattleState.updChar, BattleState.setChar, BattleState.getChar,
          BattleState.pushLog]
      have hch1 : (applyBuff st false t buff).character1 = st.character1 := by
        simp [applyBuff, hfind, BattleState.updChar, BattleState.setChar, BattleState.getChar,
          BattleState.pushLog]
      refine ⟨by rw [hch1]; exact i1, by rw [hch2]; exact i2, by rw [hch1]; exact i3, ?_⟩
      rw [hch2]
      intro x hx hty
      obtain ⟨b0, hb0, htyeq, hameq⟩ := refreshBuff_mem _ _ _ x hx
      rw [hameq]
      exact i4 b0 hb0 (htyeq ▸ hty)

theorem processCharacterEffects_inv (s1 s2 : Stats) (st : BattleState) (who : Bool) (t : ℚ)
    (hs : SpeedInv s1 s2 st) : SpeedInv s1 s2 (processCharacterEffects st who t) := by
  obtain ⟨i1, i2, i3, i4⟩ := hs
  cases who with
  | true =>
    have hA := procEffectList_frame true t st st.character1.periodicEffects
    refine ⟨?_, ?_, ?_, ?_⟩
    · simp [processCharacterEffects, BattleState.updChar, BattleState.setChar,
        BattleState.getChar, expireBuffs_chars, hA.1, i1]
    · simp [processCharacterEffects, BattleState.updChar, BattleState.setChar,
        BattleState.getChar, expireBuffs_chars, hA.2.2.1, i2]
    · simp only [processCharacterEffects]
      intro x hx hty
      simp [BattleState.updChar, BattleState.setChar, BattleState.getChar] at hx
      have hmem := expireBuffs_sub _ _ _ _ x hx
      refine i3 x ?_ hty
      simpa [hA.2.1] using hmem
    · simp only [processCharacterEffects]
      intro x hx hty
      refine i4 x ?_ hty
      revert hx
      simp [BattleState.updChar, BattleState.setChar, BattleState.getChar,
        expireBuffs_chars, hA.2.2.2]
  | false =>
    have hA := procEffectList_frame false t st st.character2.periodicEffects
    refine ⟨?_, ?_, ?_, ?_⟩
    · simp [processCharacterEffects, BattleState.updChar, BattleState.setChar,
        BattleState.getChar, expireBuffs_chars, hA.1, i1]
    · simp [processCharacterEffects, BattleState.updChar, BattleState.setChar,
        BattleState.getChar, expireBuffs_chars, hA.2.2.1, i2]
    · simp only [processCharacterEffects]
      intro x hx hty
      refine i3 x ?_ hty
      revert hx
      simp [BattleState.updChar, BattleState.setChar, BattleState.getChar,
        expireBuffs_chars, hA.2.1]
    · simp only [processCharacterEffects]
      intro x hx hty
      simp [BattleState.updChar, BattleState.setChar, BattleState.getChar] at hx
      have hmem := expireBuffs_sub _ _ _ _ x hx
      refine i4 x ?_ hty
      simpa [hA.2.2.2] using hmem

theorem processEffects_inv (s1 s2 : Stats) (st : BattleState) (t : ℚ)
    (hs : SpeedInv s1 s2 st) : SpeedInv s1 s2 (processEffects st t) :=
  processCharacterEffects_inv s1 s2 _ false t
    (processCharacterEffects_inv s1 s2 st true t hs)

theorem processHealAbility_frame (st : BattleState) (atk : Bool) (t : ℚ) (he : HealEffect)
    (msg : String) :
    (processHealAbility st atk t he msg).character1.stats = st.character1.stats ∧
    (processHealAbility st atk t he msg).character1.buffs = st.character1.buffs ∧
    (processHealAbility st atk t he msg).character2.stats = st.character2.stats ∧
    (processHealAbility st atk t he msg).character2.buffs = st.character2.buffs := by
  simp [processHealAbility, applyHeal_frame, BattleState.pushLog]

theorem processDotAbility_frame (cat : Catalog) (st : BattleState) (atk : Bool) (t : ℚ)
    (a : Ability) (de : DotEffect) :
    (processDotAbility cat st atk t a de).character1.stats = st.character1.stats ∧
    (processDotAbility cat st atk t a de).character1.buffs = st.character1.buffs ∧
    (processDotAbility cat st atk t a de).character2.stats = st.character2.stats ∧
    (processDotAbility cat st atk t a de).character2.buffs = st.character2.buffs := by
  by_cases hd1 : a.damage = some "physical" <;> by_cases hd2 : a.damage = some "magic" <;>
    simp [processDotAbility, hd1, hd2, performPhysicalAttack_frame, performMagicAttack_frame,
      applyPeriodicEffect_frame2]

theorem processPeriodicAbility_frame (st : BattleState) (atk : Bool) (t : ℚ) (a : Ability)
    (pe : PeriodicEffectDef) (msg : String) :
    (processPeriodicAbility st atk t a pe msg).character1.stats = st.character1.stats ∧
    (processPeriodicAbility st atk t a pe msg).character1.buffs = st.character1.buffs ∧
    (processPeriodicAbility st atk t a pe msg).character2.stats = st.character2.stats ∧
    (processPeriodicAbility st atk t a pe msg).character2.buffs = st.character2.buffs := by
  by_cases hty : pe.type = "manaDrain" <;> cases atk <;>
    simp [processPeriodicAbility, hty, applyPeriodicEffect_frame2, BattleState.updChar,
      BattleState.setChar, BattleState.getChar, BattleState.pushLog, ite_character1,
      ite_character2, ite_stats, ite_buffs]

theorem processDamageAbility_frame (cat : Catalog) (st : BattleState) (atk : Bool) (t : ℚ)
    (a : Ability) :
    (processDamageAbility cat st atk t a).character1.stats = st.character1.stats ∧
    (processDamageAbility cat st atk t a).character1.buffs = st.character1.buffs ∧
    (processDamageAbility cat st atk t a).character2.stats = st.character2.stats ∧
    (processDamageAbility cat st atk t a).character2.buffs = st.character2.buffs := by
  by_cases hd1 : a.damage = some "physical" <;> by_cases hd2 : a.damage = some "magic" <;>
    cases hce : a.criticalEffect <;> cases atk <;>
      simp [processDamageAbility, hd1, hd2, hce, performPhysicalAttack_frame,
        performMagicAttack_frame, performBasicAttack_frame, applyPeriodicEffect_frame2,
        BattleState.updChar, BattleState.setChar, BattleState.getChar, BattleState.pushLog,
        ite_character1, ite_character2, ite_stats, ite_buffs]

theorem multiAttackExtraHits_frame (cat : Catalog) (a : Ability) (atk : Bool) (t d : ℚ)
    (st : BattleState) (i k : ℕ) :
    (multiAttackExtraHits cat a atk t d st i k).character1.stats = st.character1.stats ∧
    (multiAttackExtraHits cat a atk t d st i k).character1.buffs = st.character1.buffs ∧
    (multiAttackExtraHits cat a atk t d st i k).character2.stats = st.character2.stats ∧
    (multiAttackExtraHits cat a atk t d st i k).character2.buffs = st.character2.buffs := by
  induction k generalizing st i with
  | zero => simp [multiAttackExtraHits]
  | succ k ih =>
    by_cases hdead : (st.getChar (!atk)).currentHealth ≤ 0
    · simp [multiAttackExtraHits, hdead]
    · by_cases hm : a.damage = some "magic" <;>
        simp [multiAttackExtraHits, hdead, hm, ih, performPhysicalAttack_frame,
          performMagicAttack_frame]

theorem processMultiAttackAbility_frame (cat : Catalog) (st : BattleState) (atk : Bool)
    (t : ℚ) (a : Ability) (ma : MultiAttackDef) (msg : String) :
    (processMultiAttackAbility cat st atk t a ma msg).character1.stats = st.character1.stats ∧
    (processMultiAttackAbility cat st atk t a ma msg).character1.buffs = st.character1.buffs ∧
    (processMultiAttackAbility cat st atk t a ma msg).character2.stats = st.character2.stats ∧
    (processMultiAttackAbility cat st atk t a ma msg).character2.buffs =
      st.character2.buffs := by
  by_cases hm : a.damage = some "magic" <;>
    simp [processMultiAttackAbility, hm, multiAttackExtraHits_frame,
      performPhysicalAttack_frame, performMagicAttack_frame, BattleState.pushLog]

theorem processBuffAbility_inv (s1 s2 : Stats) (st : BattleState) (atk : Bool) (t : ℚ)
    (a : Ability) (be : BuffEffect) (msg : String)
    (hbe : be.type = "attackSpeedReduction" →
      0 ≤ buffAmountOf be s1 ∧ 0 ≤ buffAmountOf be s2)
    (hs : SpeedInv s1 s2 st) : SpeedInv s1 s2 (processBuffAbility st atk t a be msg) := by
  have hsb : SpeedInv s1 s2 (applyBuff st (if be.targetsSelf = some false then !atk else atk) t
      { name := a.name, type := be.type, amount := buffAmountOf be (st.getChar atk).stats,
        duration := be.duration, endTime := t + be.duration }) := by
    refine applyBuff_inv s1 s2 st _ t _ ?_ hs
    intro hty
    simp only at hty
    cases atk with
    | true =>
      have : (st.getChar true).stats = s1 := by
        simp [BattleState.getChar, hs.1]
      rw [this]
      exact (hbe hty).1
    | false =>
      have : (st.getChar false).stats = s2 := by
        simp [BattleState.getChar, hs.2.1]
      rw [this]
      exact (hbe hty).2
  refine SpeedInv_congr s1 s2 _ _ ?_ ?_ hsb <;>
    simp [processBuffAbility, BattleState.pushLog, ite_character1, ite_character2]

theorem processAbility_inv (s1 s2 : Stats) (cat : Catalog) (st : BattleState) (atk : Bool)
    (t : ℚ) (a : Ability)
    (ha : ∀ be, a.buffEffect = some be → be.type = "attackSpeedReduction" →
      0 ≤ buffAmountOf be s1 ∧ 0 ≤ buffAmountOf be s2)
    (hs : SpeedInv s1 s2 st) : SpeedInv s1 s2 (processAbility cat st atk t a) := by
  cases hbe : a.buffEffect with
  | some be =>
    simp only [processAbility, hbe]
    exact processBuffAbility_inv s1 s2 st atk t a be _ (ha be hbe) hs
  | none =>
    cases hhe : a.healEffect with
    | some he =>
      simp only [processAbility, hbe, hhe]
      have h := processHealAbility_frame st atk t he
        ((st.getChar atk).name ++ ((if a.type = "magic" then " casts " else " uses ") ++ a.name))
      exact SpeedInv_of_frame s1 s2 st _ h.1 h.2.1 h.2.2.1 h.2.2.2 hs
    | none =>
      cases hde : a.dotEffect with
      | some de =>
        simp only [processAbility, hbe, hhe, hde]
        have h := processDotAbility_frame cat st atk t a de
        exact SpeedInv_of_frame s1 s2 st _ h.1 h.2.1 h.2.2.1 h.2.2.2 hs
      | none =>
        cases hpe : a.periodicEffect with
        | some pe =>
          simp only [processAbility, hbe, hhe, hde, hpe]
          have h := processPeriodicAbility_frame st atk t a pe
            ((st.getChar atk).name ++
              ((if a.type = "magic" then " casts " else " uses ") ++ a.name))
          exact SpeedInv_of_frame s1 s2 st _ h.1 h.2.1 h.2.2.1 h.2.2.2 hs
        | none =>
          by_cases hgc : a.guaranteedCrit
          · simp only [processAbility, hbe, hhe, hde, hpe, hgc, if_true]
            have h := performPhysicalAttack_frame st atk t a.name (jsOr a.damageMultiplier (6/5))
              true
            exact SpeedInv_of_frame s1 s2 st _ h.1 h.2.1 h.2.2.1 h.2.2.2 hs
          · cases hma : a.multiAttack with
            | some ma =>
              simp only [processAbility, hbe, hhe, hde, hpe, hgc, if_false, Bool.false_eq_true,
                hma]
              have h := processMultiAttackAbility_frame cat st atk t a ma
                ((st.getChar atk).name ++
                  ((if a.type = "magic" then " casts " else " uses ") ++ a.name))
              exact SpeedInv_of_frame s1 s2 st _ h.1 h.2.1 h.2.2.1 h.2.2.2 hs
            | none =>
              simp only [processAbility, hbe, hhe, hde, hpe, hgc, if_false, Bool.false_eq_true,
                hma]
              have h := processDamageAbility_frame cat st atk t a
              exact SpeedInv_of_frame s1 s2 st _ h.1 h.2.1 h.2.2.1 h.2.2.2 hs

theorem updChar_frame (st : BattleState) (i : Bool) (f : Character → Character)
    (hfs : ∀ c, (f c).stats = c.stats) (hfb : ∀ c, (f c).buffs = c.buffs) :
    (st.updChar i f).character1.stats = st.character1.stats ∧
    (st.updChar i f).character1.buffs = st.character1.buffs ∧
    (st.updChar i f).character2.stats = st.character2.stats ∧
    (st.updChar i f).character2.buffs = st.character2.buffs := by
  cases i <;>
    simp [BattleState.updChar, BattleState.setChar, BattleState.getChar, hfs, hfb]

set_option maxHeartbeats 1000000 in
theorem processAttack_inv (s1 s2 : Stats) (cat : Catalog) (st : BattleState) (atk : Bool)
    (t : ℚ) (hcat : CatalogSafe cat s1 s2) (hs : SpeedInv s1 s2 st) :
    SpeedInv s1 s2 (processAttack cat st atk t) := by
  have hbasic : ∀ st' : BattleState, SpeedInv s1 s2 st' →
      SpeedInv s1 s2 (performBasicAttack cat st' atk t) := by
    intro st' hs'
    have h := performBasicAttack_frame cat st' atk t
    exact SpeedInv_of_frame s1 s2 st' _ h.1 h.2.1 h.2.2.1 h.2.2.2 hs'
  cases hrot : (st.getChar atk).rotation.get? (st.getChar atk).nextAbilityIndex with
  | none =>
    simp only [processAttack, hrot]
    exact hbasic st hs
  | some nid =>
    by_cases hcd : t ≥ cdLookup (st.getChar atk).cooldowns nid
    · cases hab : getAbility cat nid with
      | none =>
        simp only [processAttack, hrot, hcd, if_true, hab]
        exact hbasic st hs
      | some ability =>
        by_cases hmana : hasEnoughMana (st.getChar atk) ability = true
        · simp only [processAttack, hrot, hcd, if_true, hab, hmana]
          have hmem : ability ∈ cat := List.mem_of_find?_eq_some hab
          set stA := st.updChar atk
            (fun c => { c with currentMana := c.currentMana - jsOr ability.manaCost 0 })
            with hstA
          set stB := stA.updChar atk
            (fun c => { c with cooldowns := cdSet c.cooldowns ability.id (t + ability.cooldown) })
            with hstB
          set stC := processAbility cat stB atk t ability with hstC
          have h1 := updChar_frame st atk
            (fun c => { c with currentMana := c.currentMana - jsOr ability.manaCost 0 })
            (fun c => rfl) (fun c => rfl)
          rw [← hstA] at h1
          have hs1 := SpeedInv_of_frame s1 s2 st stA h1.1 h1.2.1 h1.2.2.1 h1.2.2.2 hs
          have h2 := updChar_frame stA atk
            (fun c => { c with cooldowns := cdSet c.cooldowns ability.id (t + ability.cooldown) })
            (fun c => rfl) (fun c => rfl)
          rw [← hstB] at h2
          have hs2 := SpeedInv_of_frame s1 s2 stA stB h2.1 h2.2.1 h2.2.2.1 h2.2.2.2 hs1
          have hs3 := processAbility_inv s1 s2 cat stB atk t ability
            (fun be hbe hty => hcat ability hmem be hbe hty) hs2
          rw [← hstC] at hs3
          have h4 := updChar_frame stC atk
            (fun c => { c with nextAbilityIndex := (c.nextAbilityIndex + 1) % c.rotation.length })
            (fun c => rfl) (fun c => rfl)
          exact SpeedInv_of_frame s1 s2 stC _ h4.1 h4.2.1 h4.2.2.1 h4.2.2.2 hs3
        · simp only [processAttack, hrot, hcd, if_true, hab, hmana, if_false,
            Bool.false_eq_true]
          exact hbasic st hs
    · simp only [processAttack, hrot, hcd, if_false]
      exact hbasic st hs

theorem SpeedInv_roundsUpd (s1 s2 : Stats) (st : BattleState) (n : ℕ)
    (hs : SpeedInv s1 s2 st) : SpeedInv s1 s2 { st with rounds := n } := by
  obtain ⟨a, b, c, d⟩ := hs
  exact ⟨a, b, c, d⟩

theorem battleStep_inv (s1 s2 : Stats) (cat : Catalog) (ls : LoopState)
    (hcat : CatalogSafe cat s1 s2) (hs : SpeedInv s1 s2 ls.st) :
    SpeedInv s1 s2 (battleStep cat ls).st := by
  by_cases hle : ls.char1NextAttack ≤ ls.char2NextAttack
  · simp only [battleStep, hle, if_true]
    exact SpeedInv_roundsUpd s1 s2 _ _
      (processEffects_inv s1 s2 _ _
        (processAttack_inv s1 s2 cat ls.st true ls.char1NextAttack hcat hs))
  · simp only [battleStep, hle, if_false]
    exact SpeedInv_roundsUpd s1 s2 _ _
      (processEffects_inv s1 s2 _ _
        (processAttack_inv s1 s2 cat ls.st false ls.char2NextAttack hcat hs))

theorem one_le_list_prod (l : List ℚ) (h : ∀ x ∈ l, 1 ≤ x) : 1 ≤ l.prod := by
  induction l with
  | nil => simp
  | cons x rest ih =>
    rw [List.prod_cons]
    have hx := h x (List.mem_cons_self x rest)
    have hp := ih (fun y hy => h y (List.mem_cons_of_mem x hy))
    nlinarith

theorem speed_factor_prod_ge_one (l : List Buff)
    (h : ∀ b ∈ l, b.type = "attackSpeedReduction" → 0 ≤ b.amount) :
    1 ≤ ((l.filter (fun b => b.type = "attackSpeedReduction")).map
      (fun b => 1 + b.amount / 100)).prod := by
  refine one_le_list_prod _ (fun x hx => ?_)
  obtain ⟨b, hbf, hbx⟩ := List.mem_map.mp hx
  have hbm := List.mem_of_mem_filter hbf
  have hbt : b.type = "attackSpeedReduction" := by
    have := List.of_mem_filter hbf
    simpa using this
  have ham := h b hbm hbt
  have : (0 : ℚ) ≤ b.amount / 100 := by positivity
  rw [← hbx]
  linarith

theorem effSpeed_lower (s1 s2 : Stats) (st : BattleState) (hs : SpeedInv s1 s2 st)
    (h1 : 0 ≤ s1.attackSpeed) (h2 : 0 ≤ s2.attackSpeed) :
    s1.attackSpeed ≤ getEffectiveAttackSpeed st.character1 ∧
    s2.attackSpeed ≤ getEffectiveAttackSpeed st.character2 := by
  obtain ⟨i1, i2, i3, i4⟩ := hs
  constructor
  · unfold getEffectiveAttackSpeed
    rw [foldl_speed_eq_prod, i1, one_mul]
    have hp := speed_factor_prod_ge_one st.character1.buffs i3
    nlinarith
  · unfold getEffectiveAttackSpeed
    rw [foldl_speed_eq_prod, i2, one_mul]
    have hp := speed_factor_prod_ge_one st.character2.buffs i4
    nlinarith

theorem clockFuel_decrease (δ n s : ℚ) (hδ : 0 < δ) (hs : δ ≤ s) (hn : n < 300) :
    clockFuel δ (n + s) < clockFuel δ n := by
  unfold clockFuel
  have hold : 1 ≤ ⌈(300 - n) / δ⌉ := by
    have hpos : 0 < (300 - n) / δ := div_pos (by linarith) hδ
    exact Int.ceil_pos.mpr hpos
  have hstep : (300 - (n + s)) / δ ≤ (300 - n) / δ - 1 := by
    have hsd : (1 : ℚ) ≤ s / δ := (one_le_div hδ).mpr hs
    have hrw : (300 - (n + s)) / δ = (300 - n) / δ - s / δ := by
      rw [← sub_div]
      ring_nf
    linarith
  have hceil : ⌈(300 - (n + s)) / δ⌉ ≤ ⌈(300 - n) / δ⌉ - 1 := by
    calc ⌈(300 - (n + s)) / δ⌉ ≤ ⌈(300 - n) / δ - 1⌉ := Int.ceil_le_ceil hstep
      _ = ⌈(300 - n) / δ⌉ - 1 := by
          simp
  omega

theorem runBattleLoop_of_stop (cat : Catalog) (fuel : ℕ) (ls : LoopState)
    (h : loopCond ls = false) : runBattleLoop cat fuel ls = some ls := by
  cases fuel <;> simp [runBattleLoop, h]

theorem loopCond_true_iff (ls : LoopState) :
    loopCond ls = true ↔
      (0 < ls.st.character1.currentHealth ∧ 0 < ls.st.character2.currentHealth ∧
        ls.battleTime < 300) := by
  simp [loopCond]

theorem battleStep_clocks_left (cat : Catalog) (ls : LoopState)
    (h : ls.char1NextAttack ≤ ls.char2NextAttack) :
    (battleStep cat ls).char1NextAttack = ls.char1NextAttack +
      getEffectiveAttackSpeed (processAttack cat ls.st true ls.char1NextAttack).character1 ∧
    (battleStep cat ls).char2NextAttack = ls.char2NextAttack ∧
    (battleStep cat ls).battleTime = ls.char1NextAttack := by
  simp [battleStep, h]

theorem battleStep_clocks_right (cat : Catalog) (ls : LoopState)
    (h : ¬ ls.char1NextAttack ≤ ls.char2NextAttack) :
    (battleStep cat ls).char2NextAttack = ls.char2NextAttack +
      getEffectiveAttackSpeed (processAttack cat ls.st false ls.char2NextAttack).character2 ∧
    (battleStep cat ls).char1NextAttack = ls.char1NextAttack ∧
    (battleStep cat ls).battleTime = ls.char2NextAttack := by
  simp [battleStep, h]

theorem runBattleLoop_terminates (s1 s2 : Stats) (cat : Catalog)
    (hcat : CatalogSafe cat s1 s2) (h1 : 0 < s1.attackSpeed) (h2 : 0 < s2.attackSpeed) :
    ∀ (fuel : ℕ) (ls : LoopState), SpeedInv s1 s2 ls.st →
      loopMeasure (min s1.attackSpeed s2.attackSpeed) ls < fuel →
      ∃ out, runBattleLoop cat fuel ls = some out ∧ SpeedInv s1 s2 out.st ∧
        loopCond out = false := by
  intro fuel
  induction fuel with
  | zero => exact fun ls _ hm => absurd hm (Nat.not_lt_zero _)
  | succ fuel ih =>
    intro ls hinv hm
    by_cases hc : loopCond ls = true
    · have hstep_inv := battleStep_inv s1 s2 cat ls hcat hinv
      have hrun : runBattleLoop cat (fuel + 1) ls = runBattleLoop cat fuel (battleStep cat ls) := by
        simp [runBattleLoop, hc]
      by_cases hc2 : loopCond (battleStep cat ls) = true
      · have hδ : 0 < min s1.attackSpeed s2.attackSpeed := lt_min h1 h2
        have hmdec : loopMeasure (min s1.attackSpeed s2.attackSpeed) (battleStep cat ls) <
            loopMeasure (min s1.attackSpeed s2.attackSpeed) ls := by
          by_cases hle : ls.char1NextAttack ≤ ls.char2NextAttack
          · obtain ⟨e1, e2, e3⟩ := battleStep_clocks_left cat ls hle
            have ht : ls.char1NextAttack < 300 := by
              have hcc := (loopCond_true_iff _).mp hc2
              rw [e3] at hcc
              exact hcc.2.2
            have hpin := processAttack_inv s1 s2 cat ls.st true ls.char1NextAttack hcat hinv
            have hsp : min s1.attackSpeed s2.attackSpeed ≤
                getEffectiveAttackSpeed
                  (processAttack cat ls.st true ls.char1NextAttack).character1 :=
              le_trans (min_le_left _ _)
                (effSpeed_lower s1 s2 _ hpin (le_of_lt h1) (le_of_lt h2)).1
            have hdec := clockFuel_decrease (min s1.attackSpeed s2.attackSpeed)
              ls.char1NextAttack _ hδ hsp ht
            unfold loopMeasure
            rw [e1, e2]
            omega
          · obtain ⟨e1, e2, e3⟩ := battleStep_clocks_right cat ls hle
            have ht : ls.char2NextAttack < 300 := by
              have hcc := (loopCond_true_iff _).mp hc2
              rw [e3] at hcc
              exact hcc.2.2
            have hpin := processAttack_inv s1 s2 cat ls.st false ls.char2NextAttack hcat hinv
            have hsp : min s1.attackSpeed s2.attackSpeed ≤
                getEffectiveAttackSpeed
                  (processAttack cat ls.st false ls.char2NextAttack).character2 :=
              le_trans (min_le_right _ _)
                (effSpeed_lower s1 s2 _ hpin (le_of_lt h1) (le_of_lt h2)).2
            have hdec := clockFuel_decrease (min s1.attackSpeed s2.attackSpeed)
              ls.char2NextAttack _ hδ hsp ht
            unfold loopMeasure
            rw [e1, e2]
            omega
        have hm2 : loopMeasure (min s1.attackSpeed s2.attackSpeed) (battleStep cat ls) < fuel := by
          omega
        obtain ⟨out, ho, hoi, hoc⟩ := ih (battleStep cat ls) hstep_inv hm2
        exact ⟨out, hrun.trans ho, hoi, hoc⟩
      · have hcf2 : loopCond (battleStep cat ls) = false := by
          simpa using hc2
        exact ⟨battleStep cat ls,
          hrun.trans (runBattleLoop_of_stop cat fuel _ hcf2), hstep_inv, hcf2⟩
    · have hcf : loopCond ls = false := by simpa using hc
      exact ⟨ls, by simp [runBattleLoop, hcf], hinv, hcf⟩

theorem determineWinner_chars (st : BattleState) (t : ℚ) :
    (determineWinner st t).character1 = st.character1 ∧
    (determineWinner st t).character2 = st.character2 := by
  simp [determineWinner, logFinalState, BattleState.pushLog, ite_character1, ite_character2]

theorem determineWinner_winner_classified (st : BattleState) (t : ℚ) :
    (determineWinner st t).winner = some st.character1.id ∨
    (determineWinner st t).winner = some st.character2.id ∨
    ((determineWinner st t).winner = none ∧ 0 < st.character1.currentHealth ∧
      0 < st.character2.currentHealth ∧
      st.character1.currentHealth / st.character1.stats.health * 100 =
        st.character2.currentHealth / st.character2.stats.health * 100) := by
  by_cases h1 : st.character1.currentHealth ≤ 0
  · right; left
    simp [determineWinner, h1, logFinalState_winner, pushLog_winner]
  · by_cases h2 : st.character2.currentHealth ≤ 0
    · left
      simp [determineWinner, h1, h2, logFinalState_winner, pushLog_winner]
    · by_cases hgt : st.character1.currentHealth / st.character1.stats.health * 100 >
          st.character2.currentHealth / st.character2.stats.health * 100
      · left
        simp [determineWinner, h1, h2, hgt, logFinalState_winner, pushLog_winner]
      · by_cases hlt : st.character2.currentHealth / st.character2.stats.health * 100 >
            st.character1.currentHealth / st.character1.stats.health * 100
        · right; left
          simp [determineWinner, h1, h2, hgt, hlt, logFinalState_winner, pushLog_winner]
        · right; right
          refine ⟨?_, not_le.mp h1, not_le.mp h2, le_antisymm (not_lt.mp hgt) (not_lt.mp hlt)⟩
          simp [determineWinner, h1, h2, hgt, hlt, logFinalState_winner, pushLog_winner]

theorem simulateBattle_init_inv (c1 c2 : CharacterRecord) (rolls : ℕ → ℚ) :
    SpeedInv c1.stats c2.stats (initializeBattleLog
      { character1 := createCharacterBattleState c1,
        character2 := createCharacterBattleState c2, rolls := rolls }) := by
  simp [SpeedInv, initializeBattleLog, createCharacterBattleState, BattleState.pushLog]

theorem init_measure_lt (s1 s2 : Stats) (st0 : BattleState) :
    loopMeasure (min s1.attackSpeed s2.attackSpeed)
      { st := st0, char1NextAttack := 0, char2NextAttack := 0, battleTime := 0 } <
      battleFuel s1 s2 := by
  unfold loopMeasure clockFuel battleFuel
  simp
  omega

/-- C2: for valid combatants (positive attack speed, and a catalog whose
attack-speed debuffs carry non-negative amounts), `simulateBattle` runs to
completion within the explicit fuel bound `battleFuel`: the loop stops only
because a combatant died or the 300-second cap was reached, and the result
carries exactly one outcome — a definite winner id or `null` exactly on the
equal-percentage draw. -/
theorem simulateBattle_terminates (cat : Catalog) (rolls : ℕ → ℚ)
    (character1 character2 : CharacterRecord) (isMatchmade : Bool)
    (h1 : 0 < character1.stats.attackSpeed) (h2 : 0 < character2.stats.attackSpeed)
    (hcat : CatalogSafe cat character1.stats character2.stats) :
    ∃ res ls, simulateBattle cat rolls (battleFuel character1.stats character2.stats)
        character1 character2 isMatchmade = some (res, ls) ∧
      ¬(0 < ls.st.character1.currentHealth ∧ 0 < ls.st.character2.currentHealth ∧
          ls.battleTime < 300) ∧
      (res.winner = some ls.st.character1.id ∨ res.winner = some ls.st.character2.id ∨
        (res.winner = none ∧ 0 < ls.st.character1.currentHealth ∧
          0 < ls.st.character2.currentHealth ∧
          ls.st.character1.currentHealth / ls.st.character1.stats.health * 100 =
            ls.st.character2.currentHealth / ls.st.character2.stats.health * 100)) := by
  obtain ⟨out, hrun, hoinv, hoc⟩ :=
    runBattleLoop_terminates character1.stats character2.stats cat hcat h1 h2
      (battleFuel character1.stats character2.stats)
      { st := initializeBattleLog
          { character1 := createCharacterBattleState character1,
            character2 := createCharacterBattleState character2, rolls := rolls },
        char1NextAttack := 0, char2NextAttack := 0, battleTime := 0 }
      (simulateBattle_init_inv character1 character2 rolls)
      (init_measure_lt character1.stats character2.stats _)
  have hchars := determineWinner_chars out.st out.battleTime
  refine ⟨formatBattleResult (determineWinner out.st out.battleTime) isMatchmade,
    { out with st := determineWinner out.st out.battleTime }, ?_, ?_, ?_⟩
  · simp [simulateBattle, hrun]
  · simp only [hchars.1, hchars.2]
    intro hcontra
    have : loopCond out = true := by
      rw [loopCond_true_iff]
      exact hcontra
    rw [hoc] at this
    exact Bool.false_ne_true this
  · have hcase := determineWinner_winner_classified out.st out.battleTime
    simp only [formatBattleResult, hchars.1, hchars.2]
    exact hcase

/-- C2 witness: two concrete rotationless combatants with attack speed 5
and the empty catalog satisfy every validity hypothesis, and the battle
completes with a classified outcome. -/
theorem simulateBattle_terminates_witness :
    (0 < wRec1.stats.attackSpeed ∧ 0 < wRec2.stats.attackSpeed ∧
      CatalogSafe [] wRec1.stats wRec2.stats) ∧
    (∃ res ls, simulateBattle [] (fun _ => 1/2) (battleFuel wRec1.stats wRec2.stats)
        wRec1 wRec2 false = some (res, ls) ∧
      ¬(0 < ls.st.character1.currentHealth ∧ 0 < ls.st.character2.currentHealth ∧
          ls.battleTime < 300) ∧
      (res.winner = some ls.st.character1.id ∨ res.winner = some ls.st.character2.id ∨
        (res.winner = none ∧ 0 < ls.st.character1.currentHealth ∧
          0 < ls.st.character2.currentHealth ∧
          ls.st.character1.currentHealth / ls.st.character1.stats.health * 100 =
            ls.st.character2.currentHealth / ls.st.character2.stats.health * 100))) :=
  ⟨⟨by norm_num [wRec1, wStats], by norm_num [wRec2, wStats], by simp [CatalogSafe]⟩,
    simulateBattle_terminates [] (fun _ => 1/2) wRec1 wRec2 false
      (by norm_num [wRec1, wStats]) (by norm_num [wRec2, wStats]) (by simp [CatalogSafe])⟩

end IdleRPG
